import Mathlib

/-!
Verification development for the DeepSeek Telegram bot repository.

Shallow embedding of the core data model and operations:
- `graph_memory.py`: `UserKnowledgeGraph` (versioned interest graph),
  `TopicDetector.detect_topics`;
- `deepseek_analyzer.py`: `DeepSeekAnalyzer._update_graph_from_analysis`
  (fact merge + interest merge), `DailyMessageCollector.get_messages_for_day`
  grouping, transcript construction in `analyze_user_messages`;
- `memory.py`: `Memory.add_message`, `Memory.add_bot_response`,
  `Memory.clear_daily_log`;
- `night_analyzator.py`: `TaskScheduler._run_scheduler` firing guard and
  `TaskScheduler.run_task_now`.

Python dicts are modelled as insertion-ordered association lists, Python
lists as Lean lists, `datetime` values as a record of their components
(Python compares datetimes lexicographically on the components, and
`isoformat`/`fromisoformat` are mutually inverse on such values, so the
serialized form of a timestamp is modelled by the value itself).
-/

namespace DeepSeekBot

/-- Model of Python `datetime`: the tuple of components.  Comparison of two
datetimes in Python is lexicographic on these components. -/
structure DateTime where
  year : Nat
  month : Nat
  day : Nat
  hour : Nat
  minute : Nat
  second : Nat
  microsecond : Nat
deriving DecidableEq, Repr

/-- Python `datetime.__le__`: lexicographic comparison on the components. -/
def DateTime.le (a b : DateTime) : Bool :=
  if a.year ≠ b.year then a.year < b.year
  else if a.month ≠ b.month then a.month < b.month
  else if a.day ≠ b.day then a.day < b.day
  else if a.hour ≠ b.hour then a.hour < b.hour
  else if a.minute ≠ b.minute then a.minute < b.minute
  else if a.second ≠ b.second then a.second < b.second
  else a.microsecond ≤ b.microsecond

/-- Python `datetime.date()`: the (year, month, day) triple. -/
def DateTime.dateOf (d : DateTime) : Nat × Nat × Nat :=
  (d.year, d.month, d.day)

/-- `now.replace(hour=0, minute=0, second=0, microsecond=0)` from
`Memory.clear_daily_log`: local midnight of the given instant. -/
def DateTime.midnight (d : DateTime) : DateTime :=
  { d with hour := 0, minute := 0, second := 0, microsecond := 0 }

/-- Unicode simple lowercase mapping for the scripts this program uses
(ASCII Latin A-Z and Cyrillic А-Я with Ё), matching Python `str.lower()` on
these characters and the identity elsewhere in its domain of use. -/
def lowerChar (c : Char) : Char :=
  let n := c.toNat
  if 65 ≤ n ∧ n ≤ 90 then Char.ofNat (n + 32)
  else if 1040 ≤ n ∧ n ≤ 1071 then Char.ofNat (n + 32)
  else if n = 1025 then Char.ofNat 1105
  else c

/-- Model of Python `str.lower()`: lowercase each character. -/
def pyLower (s : String) : String :=
  String.mk (s.data.map lowerChar)

/-- `InterestStatus` from `models.py`. -/
inductive InterestStatus where
  | likes
  | dislikes
deriving DecidableEq, Repr

/-- `InterestStatus.value`. -/
def InterestStatus.value : InterestStatus → String
  | .likes => "likes"
  | .dislikes => "dislikes"

/-- The `InterestStatus(s)` enum constructor applied to a string: `none`
models the `ValueError` raised on an unknown value. -/
def InterestStatus.ofValue? : String → Option InterestStatus
  | "likes" => some .likes
  | "dislikes" => some .dislikes
  | _ => none

/-- `InterestEntry` from `models.py`. -/
structure InterestEntry where
  name : String
  status : InterestStatus
  added_at : DateTime
  current : Bool
deriving DecidableEq, Repr

/-- `TopicCategory` from `graph_memory.py`. -/
inductive TopicCategory where
  | gaming
  | food
  | education
  | work
  | entertainment
  | social
  | tech
  | sports
  | music
  | travel
  | general
deriving DecidableEq, Repr

/-- `TopicCategory.value`. -/
def TopicCategory.value : TopicCategory → String
  | .gaming => "gaming"
  | .food => "food"
  | .education => "education"
  | .work => "work"
  | .entertainment => "entertainment"
  | .social => "social"
  | .tech => "tech"
  | .sports => "sports"
  | .music => "music"
  | .travel => "travel"
  | .general => "general"

/-- The `TopicCategory(s)` enum constructor applied to a string: `none`
models the `ValueError` on an unknown category (caught and skipped in
`_update_graph_from_analysis`). -/
def TopicCategory.ofValue? : String → Option TopicCategory
  | "gaming" => some .gaming
  | "food" => some .food
  | "education" => some .education
  | "work" => some .work
  | "entertainment" => some .entertainment
  | "social" => some .social
  | "tech" => some .tech
  | "sports" => some .sports
  | "music" => some .music
  | "travel" => some .travel
  | "general" => some .general
  | _ => none

/-- `UserKnowledgeGraph` from `graph_memory.py`.  Python dicts are
insertion-ordered, so `interests`, `personal` and `social` are association
lists. `personal`/`social` hold loosely-typed data the core never inspects;
string values suffice for the operations modelled here. -/
structure UserKnowledgeGraph where
  user_id : Int
  username : String
  quick_facts : List String
  interests : List (String × List InterestEntry)
  personal : List (String × String)
  social : List (String × String)
  active_hours : List Int
  typical_topics : List String
  created_at : DateTime
  updated_at : DateTime
deriving DecidableEq, Repr

/-- `cat_str in self.interests` / `self.interests[cat_str] = []`: append the
key with an empty list when absent (Python dicts append new keys at the
end). -/
def ensureCat (m : List (String × List InterestEntry)) (k : String) :
    List (String × List InterestEntry) :=
  if m.any (fun p => p.1 == k) then m else m ++ [(k, [])]

/-- In-place mutation of the list stored at key `k` of the dict. -/
def updateCat (m : List (String × List InterestEntry)) (k : String)
    (f : List InterestEntry → List InterestEntry) :
    List (String × List InterestEntry) :=
  m.map (fun p => if p.1 == k then (p.1, f p.2) else p)

/-- Dict lookup `self.interests.get(cat_str, [])` for observation purposes. -/
def lookupCat (m : List (String × List InterestEntry)) (k : String) :
    List InterestEntry :=
  ((m.find? (fun p => p.1 == k)).map Prod.snd).getD []

/-- The loop condition in `add_interest`:
`entry.name.lower() == name.lower() and entry.current`. -/
def curMatch (name : String) (e : InterestEntry) : Bool :=
  pyLower e.name == pyLower name && e.current

/-- Mutate (in place) the first element of the list satisfying `p`, as the
Python loop does via the `existing_entry` reference. -/
def modifyFirst (p : InterestEntry → Bool) (f : InterestEntry → InterestEntry) :
    List InterestEntry → List InterestEntry
  | [] => []
  | e :: rest => if p e then f e :: rest else e :: modifyFirst p f rest

/-- The effect of `UserKnowledgeGraph.add_interest` on the entry list of the
chosen category (`graph_memory.py` lines 285-306), with `datetime.now()`
passed in as `now`. -/
def addInterestEntries (entries : List InterestEntry) (name : String)
    (status : InterestStatus) (now : DateTime) : List InterestEntry :=
  match entries.find? (curMatch name) with
  | some existing_entry =>
    if existing_entry.status = status then
      -- Same status, just update timestamp
      modifyFirst (curMatch name) (fun e => { e with added_at := now }) entries
    else
      -- Status changed: mark old as not current, append new entry
      modifyFirst (curMatch name) (fun e => { e with current := false }) entries
        ++ [{ name := name, status := status, added_at := now, current := true }]
  | none =>
      -- New interest
      entries ++ [{ name := name, status := status, added_at := now, current := true }]

/-- `UserKnowledgeGraph.add_interest` from `graph_memory.py`. -/
def UserKnowledgeGraph.add_interest (g : UserKnowledgeGraph)
    (category : TopicCategory) (name : String) (status : InterestStatus)
    (now : DateTime) : UserKnowledgeGraph :=
  let cat_str := category.value
  let m := ensureCat g.interests cat_str
  { g with interests :=
      updateCat m cat_str (fun es => addInterestEntries es name status now) }

/-- Observation: the entry list stored for a category. -/
def entriesFor (g : UserKnowledgeGraph) (c : TopicCategory) : List InterestEntry :=
  lookupCat g.interests c.value

/-- `TopicCategory.value` is injective. -/
theorem TopicCategory.value_inj {a b : TopicCategory} (h : a.value = b.value) : a = b := by
  cases a <;> cases b <;> first | rfl | simp [TopicCategory.value] at h

theorem updateCat_cons (a : String × List InterestEntry)
    (t : List (String × List InterestEntry)) (k : String)
    (f : List InterestEntry → List InterestEntry) :
    updateCat (a :: t) k f
      = (if a.1 == k then (a.1, f a.2) else a) :: updateCat t k f := rfl

theorem lookupCat_cons_pos (a : String × List InterestEntry)
    (t : List (String × List InterestEntry)) (k : String) (h : (a.1 == k) = true) :
    lookupCat (a :: t) k = a.2 := by
  simp [lookupCat, List.find?_cons, h]

theorem lookupCat_cons_neg (a : String × List InterestEntry)
    (t : List (String × List InterestEntry)) (k : String) (h : (a.1 == k) = false) :
    lookupCat (a :: t) k = lookupCat t k := by
  simp [lookupCat, List.find?_cons, h]

theorem updateCat_of_not_mem (m : List (String × List InterestEntry)) (k : String)
    (f : List InterestEntry → List InterestEntry)
    (h : m.any (fun p => p.1 == k) = false) : updateCat m k f = m := by
  induction m with
  | nil => rfl
  | cons a t ih =>
    simp only [List.any_cons, Bool.or_eq_false_iff] at h
    rw [updateCat_cons, h.1, ih h.2]
    simp

theorem lookupCat_of_not_mem (m : List (String × List InterestEntry)) (k : String)
    (h : m.any (fun p => p.1 == k) = false) : lookupCat m k = [] := by
  induction m with
  | nil => rfl
  | cons a t ih =>
    simp only [List.any_cons, Bool.or_eq_false_iff] at h
    rw [lookupCat_cons_neg _ _ _ h.1]
    exact ih h.2

theorem lookupCat_updateCat_self (m : List (String × List InterestEntry)) (k : String)
    (f : List InterestEntry → List InterestEntry)
    (h : m.any (fun p => p.1 == k) = true) :
    lookupCat (updateCat m k f) k = f (lookupCat m k) := by
  induction m with
  | nil => simp at h
  | cons a t ih =>
    rw [updateCat_cons]
    cases hk : (a.1 == k) with
    | true =>
      rw [if_pos rfl, lookupCat_cons_pos (a.1, f a.2) _ _ hk, lookupCat_cons_pos _ _ _ hk]
    | false =>
      simp only [List.any_cons, hk, Bool.false_or] at h
      rw [if_neg (by simp), lookupCat_cons_neg _ _ _ hk, lookupCat_cons_neg _ _ _ hk]
      exact ih h

theorem lookupCat_updateCat_ne (m : List (String × List InterestEntry)) (k kp : String)
    (f : List InterestEntry → List InterestEntry) (h : kp ≠ k) :
    lookupCat (updateCat m k f) kp = lookupCat m kp := by
  induction m with
  | nil => rfl
  | cons a t ih =>
    rw [updateCat_cons]
    cases hk : (a.1 == k) with
    | true =>
      have hk2 : (a.1 == kp) = false := by
        rw [beq_eq_false_iff_ne]
        intro hc
        exact h (hc ▸ (beq_iff_eq.mp hk))
      rw [if_pos rfl, lookupCat_cons_neg (a.1, f a.2) _ _ hk2, lookupCat_cons_neg _ _ _ hk2]
      exact ih
    | false =>
      rw [if_neg (by simp)]
      cases hc : (a.1 == kp) with
      | true => rw [lookupCat_cons_pos _ _ _ hc, lookupCat_cons_pos _ _ _ hc]
      | false => rw [lookupCat_cons_neg _ _ _ hc, lookupCat_cons_neg _ _ _ hc]; exact ih

theorem lookupCat_append_single (m : List (String × List InterestEntry)) (k : String)
    (v : List InterestEntry) (h : m.any (fun p => p.1 == k) = false) :
    lookupCat (m ++ [(k, v)]) k = v := by
  induction m with
  | nil => exact lookupCat_cons_pos _ _ _ (by simp)
  | cons a t ih =>
    simp only [List.any_cons, Bool.or_eq_false_iff] at h
    rw [List.cons_append, lookupCat_cons_neg _ _ _ h.1]
    exact ih h.2

theorem lookupCat_append_single_ne (m : List (String × List InterestEntry)) (k kp : String)
    (v : List InterestEntry) (h : kp ≠ k) :
    lookupCat (m ++ [(k, v)]) kp = lookupCat m kp := by
  induction m with
  | nil =>
    have hk : ((k, v).1 == kp) = false := by
      rw [beq_eq_false_iff_ne]; exact fun hc => h hc.symm
    rw [List.nil_append, lookupCat_cons_neg _ _ _ hk]
  | cons a t ih =>
    rw [List.cons_append]
    cases hc : (a.1 == kp) with
    | true => rw [lookupCat_cons_pos _ _ _ hc, lookupCat_cons_pos _ _ _ hc]
    | false => rw [lookupCat_cons_neg _ _ _ hc, lookupCat_cons_neg _ _ _ hc]; exact ih

/-- Effect of `add_interest` on the entries of the targeted category. -/
theorem entriesFor_add_self (g : UserKnowledgeGraph) (cat : TopicCategory)
    (name : String) (s : InterestStatus) (now : DateTime) :
    entriesFor (g.add_interest cat name s now) cat
      = addInterestEntries (entriesFor g cat) name s now := by
  unfold UserKnowledgeGraph.add_interest entriesFor ensureCat
  by_cases h : (g.interests.any (fun p => p.1 == cat.value)) = true
  · simp only [h, if_true]
    exact lookupCat_updateCat_self _ _ _ h
  · rw [Bool.not_eq_true] at h
    simp only [h, Bool.false_eq_true, if_false]
    have hmem : ((g.interests ++ [(cat.value, [])]).any (fun p => p.1 == cat.value)) = true := by
      simp [List.any_append]
    rw [lookupCat_updateCat_self _ _ _ hmem, lookupCat_append_single _ _ _ h,
      lookupCat_of_not_mem _ _ h]

/-- `add_interest` leaves the entries of every other category unchanged. -/
theorem entriesFor_add_ne (g : UserKnowledgeGraph) (cat c : TopicCategory)
    (name : String) (s : InterestStatus) (now : DateTime) (h : c ≠ cat) :
    entriesFor (g.add_interest cat name s now) c = entriesFor g c := by
  have hv : c.value ≠ cat.value := fun hc => h (TopicCategory.value_inj hc)
  unfold UserKnowledgeGraph.add_interest entriesFor ensureCat
  by_cases hmem : (g.interests.any (fun p => p.1 == cat.value)) = true
  · simp only [hmem, if_true]
    exact lookupCat_updateCat_ne _ _ _ _ hv
  · rw [Bool.not_eq_true] at hmem
    simp only [hmem, Bool.false_eq_true, if_false]
    rw [lookupCat_updateCat_ne _ _ _ _ hv, lookupCat_append_single_ne _ _ _ _ hv]

/-- Observation: does an entry concern the given interest name (the
case-insensitive comparison used throughout `add_interest`)? -/
def keyMatch (name : String) (e : InterestEntry) : Bool :=
  pyLower e.name == pyLower name

/-- Observation: a historical (non-current) entry for `name` with status `s`. -/
def nonCurWith (name : String) (s : InterestStatus) (e : InterestEntry) : Bool :=
  keyMatch name e && !e.current && decide (e.status = s)

theorem curMatch_eq_keyMatch (name : String) (e : InterestEntry) :
    curMatch name e = (keyMatch name e && e.current) := rfl

theorem find?_decomp {α : Type} (p : α → Bool) (l : List α) (e : α)
    (h : l.find? p = some e) :
    ∃ l1 l2, l = l1 ++ e :: l2 ∧ (∀ x ∈ l1, p x = false) := by
  induction l with
  | nil => cases h
  | cons a t ih =>
    cases hp : p a with
    | true =>
      rw [List.find?_cons_of_pos _ hp] at h
      injection h with h2
      subst h2
      exact ⟨[], t, rfl, by simp⟩
    | false =>
      rw [List.find?_cons_of_neg _ (by simp [hp])] at h
      obtain ⟨l1, l2, rfl, hl1⟩ := ih h
      refine ⟨a :: l1, l2, rfl, ?_⟩
      intro x hx
      rcases List.mem_cons.mp hx with rfl | hx2
      · exact hp
      · exact hl1 x hx2

theorem find?_append_cons {α : Type} (p : α → Bool) (l1 : List α) (ex : α) (l2 : List α)
    (hl1 : ∀ x ∈ l1, p x = false) (hex : p ex = true) :
    (l1 ++ ex :: l2).find? p = some ex := by
  induction l1 with
  | nil => rw [List.nil_append, List.find?_cons_of_pos _ hex]
  | cons a t ih =>
    rw [List.cons_append, List.find?_cons_of_neg _ (by simp [hl1 a (by simp)])]
    exact ih (fun x hx => hl1 x (by simp [hx]))

theorem modifyFirst_of_forall_neg (p : InterestEntry → Bool) (f : InterestEntry → InterestEntry)
    (l : List InterestEntry) (h : ∀ x ∈ l, p x = false) : modifyFirst p f l = l := by
  induction l with
  | nil => rfl
  | cons a t ih =>
    unfold modifyFirst
    rw [h a (by simp)]
    simp only [Bool.false_eq_true, if_false, List.cons.injEq, true_and]
    exact ih (fun x hx => h x (by simp [hx]))

theorem modifyFirst_decomp (p : InterestEntry → Bool) (f : InterestEntry → InterestEntry)
    (l1 : List InterestEntry) (ex : InterestEntry) (l2 : List InterestEntry)
    (hl1 : ∀ x ∈ l1, p x = false) (hex : p ex = true) :
    modifyFirst p f (l1 ++ ex :: l2) = l1 ++ f ex :: l2 := by
  induction l1 with
  | nil =>
    rw [List.nil_append, List.nil_append]
    unfold modifyFirst
    rw [hex]
    simp
  | cons a t ih =>
    rw [List.cons_append, List.cons_append]
    unfold modifyFirst
    rw [hl1 a (by simp)]
    simp only [Bool.false_eq_true, if_false, List.cons.injEq, true_and]
    exact ih (fun x hx => hl1 x (by simp [hx]))

/-- Branch of `add_interest` taken when no current entry matches: a brand-new
entry is appended. -/
theorem addInterestEntries_none (es : List InterestEntry) (name : String)
    (s : InterestStatus) (t : DateTime) (hf : es.find? (curMatch name) = none) :
    addInterestEntries es name s t
      = es ++ [{ name := name, status := s, added_at := t, current := true }] := by
  unfold addInterestEntries
  rw [hf]

/-- Branch of `add_interest` taken when the current entry has the same status:
only the timestamp is refreshed in place. -/
theorem addInterestEntries_refresh (l1 : List InterestEntry) (ex : InterestEntry)
    (l2 : List InterestEntry) (name : String) (s : InterestStatus) (t : DateTime)
    (hl1 : ∀ x ∈ l1, curMatch name x = false) (hex : curMatch name ex = true)
    (hst : ex.status = s) :
    addInterestEntries (l1 ++ ex :: l2) name s t
      = l1 ++ { ex with added_at := t } :: l2 := by
  have hf := find?_append_cons (curMatch name) l1 ex l2 hl1 hex
  simp only [addInterestEntries, hf]
  rw [if_pos hst]
  exact modifyFirst_decomp _ _ _ _ _ hl1 hex

/-- Branch of `add_interest` taken when the current entry has a different
status: it is flipped to non-current and a new current entry is appended. -/
theorem addInterestEntries_flip (l1 : List InterestEntry) (ex : InterestEntry)
    (l2 : List InterestEntry) (name : String) (s : InterestStatus) (t : DateTime)
    (hl1 : ∀ x ∈ l1, curMatch name x = false) (hex : curMatch name ex = true)
    (hst : ¬ ex.status = s) :
    addInterestEntries (l1 ++ ex :: l2) name s t
      = (l1 ++ { ex with current := false } :: l2)
        ++ [{ name := name, status := s, added_at := t, current := true }] := by
  have hf := find?_append_cons (curMatch name) l1 ex l2 hl1 hex
  simp only [addInterestEntries, hf]
  rw [if_neg hst, modifyFirst_decomp _ _ _ _ _ hl1 hex]

theorem addInterest_list_main (es : List InterestEntry) (name : String)
    (s : InterestStatus) (t : DateTime) (h : es.countP (curMatch name) ≤ 1) :
    ((addInterestEntries es name s t).countP (curMatch name) = 1)
    ∧ (∀ e ∈ addInterestEntries es name s t, curMatch name e = true → e.status = s) := by
  cases hf : es.find? (curMatch name) with
  | none =>
    rw [addInterestEntries_none _ _ _ _ hf]
    have hall : ∀ x ∈ es, curMatch name x = false := by
      intro x hx
      have := List.find?_eq_none.mp hf x hx
      simpa using this
    have hz : es.countP (curMatch name) = 0 :=
      List.countP_eq_zero.mpr (fun a ha => by simp [hall a ha])
    have hnew : curMatch name { name := name, status := s, added_at := t, current := true }
        = true := by
      simp [curMatch]
    constructor
    · rw [List.countP_append, hz, List.countP_cons, hnew]
      simp
    · intro e he hce
      rcases List.mem_append.mp he with h1 | h2
      · rw [hall e h1] at hce; cases hce
      · rw [List.mem_singleton] at h2
        subst h2
        rfl
  | some ex =>
    have hex : curMatch name ex = true := List.find?_some hf
    obtain ⟨l1, l2, rfl, hl1⟩ := find?_decomp _ _ _ hf
    have hz1 : l1.countP (curMatch name) = 0 :=
      List.countP_eq_zero.mpr (fun a ha => by simp [hl1 a ha])
    have hz2 : l2.countP (curMatch name) = 0 := by
      have hc : (l1 ++ ex :: l2).countP (curMatch name)
          = l2.countP (curMatch name) + 1 := by
        rw [List.countP_append, hz1, List.countP_cons, hex]
        simp
      rw [hc] at h
      omega
    have hall2 : ∀ x ∈ l2, curMatch name x = false := by
      intro x hx
      have := List.countP_eq_zero.mp hz2 x hx
      simpa using this
    by_cases hst : ex.status = s
    · rw [addInterestEntries_refresh _ _ _ _ _ _ hl1 hex hst]
      have hcr : curMatch name { ex with added_at := t } = true := hex
      constructor
      · rw [List.countP_append, hz1, List.countP_cons, hcr, hz2]
        simp
      · intro e he hce
        rcases List.mem_append.mp he with h1 | h2
        · rw [hl1 e h1] at hce; cases hce
        · rcases List.mem_cons.mp h2 with rfl | h3
          · exact hst
          · rw [hall2 e h3] at hce; cases hce
    · rw [addInterestEntries_flip _ _ _ _ _ _ hl1 hex hst]
      have hcf : curMatch name { ex with current := false } = false := by
        simp [curMatch]
      have hnew : curMatch name { name := name, status := s, added_at := t, current := true }
          = true := by
        simp [curMatch]
      constructor
      · rw [List.countP_append, List.countP_append, hz1, List.countP_cons, hcf, hz2,
          List.countP_cons, hnew]
        simp
      · intro e he hce
        rcases List.mem_append.mp he with h12 | h2
        · rcases List.mem_append.mp h12 with h1 | hx
          · rw [hl1 e h1] at hce; cases hce
          · rcases List.mem_cons.mp hx with rfl | h3
            · rw [hcf] at hce; cases hce
            · rw [hall2 e h3] at hce; cases hce
        · rw [List.mem_singleton] at h2
          subst h2
          rfl

theorem addInterest_list_nonCur_self (es : List InterestEntry) (name : String)
    (s : InterestStatus) (t : DateTime) :
    (addInterestEntries es name s t).countP (nonCurWith name s)
      = es.countP (nonCurWith name s) := by
  have hnew : nonCurWith name s
      { name := name, status := s, added_at := t, current := true } = false := by
    simp [nonCurWith]
  cases hf : es.find? (curMatch name) with
  | none =>
    rw [addInterestEntries_none _ _ _ _ hf, List.countP_append, List.countP_cons, hnew]
    simp
  | some ex =>
    have hex : curMatch name ex = true := List.find?_some hf
    obtain ⟨l1, l2, rfl, hl1⟩ := find?_decomp _ _ _ hf
    have hcur : ex.current = true := by
      have h2 := hex
      simp [curMatch, Bool.and_eq_true] at h2
      exact h2.2
    by_cases hst : ex.status = s
    · rw [addInterestEntries_refresh _ _ _ _ _ _ hl1 hex hst]
      have heq : nonCurWith name s { ex with added_at := t } = nonCurWith name s ex := rfl
      rw [List.countP_append, List.countP_append, List.countP_cons, List.countP_cons, heq]
    · rw [addInterestEntries_flip _ _ _ _ _ _ hl1 hex hst]
      have h1 : nonCurWith name s ex = false := by
        simp [nonCurWith, hcur]
      have h2 : nonCurWith name s { ex with current := false } = false := by
        simp [nonCurWith, hst]
      simp only [List.countP_append, List.countP_cons, h1, h2, hnew]
      simp

theorem addInterest_list_nonCur_flip (es : List InterestEntry) (name : String)
    (s r : InterestStatus) (t : DateTime) (hr : r ≠ s)
    (hcd : ∀ e ∈ es, curMatch name e = true → e.status = r)
    (hex0 : 0 < es.countP (curMatch name)) :
    (addInterestEntries es name s t).countP (nonCurWith name r)
      = es.countP (nonCurWith name r) + 1 := by
  obtain ⟨e0, he0, hpe0⟩ := List.countP_pos_iff.mp hex0
  cases hf : es.find? (curMatch name) with
  | none =>
    exact absurd hpe0 (by simpa using List.find?_eq_none.mp hf e0 he0)
  | some ex =>
    have hex : curMatch name ex = true := List.find?_some hf
    have hmem : ex ∈ es := List.mem_of_find?_eq_some hf
    have hstr : ex.status = r := hcd ex hmem hex
    have hst : ¬ ex.status = s := by rw [hstr]; exact hr
    obtain ⟨l1, l2, rfl, hl1⟩ := find?_decomp _ _ _ hf
    rw [addInterestEntries_flip _ _ _ _ _ _ hl1 hex hst]
    have hkm : keyMatch name ex = true := by
      have h2 := hex
      rw [curMatch_eq_keyMatch, Bool.and_eq_true] at h2
      exact h2.1
    have hcur : ex.current = true := by
      have h2 := hex
      rw [curMatch_eq_keyMatch, Bool.and_eq_true] at h2
      exact h2.2
    have hkmp : pyLower ex.name = pyLower name := by
      have h4 := hkm
      simp [keyMatch] at h4
      exact h4
    have h1 : nonCurWith name r ex = false := by
      simp [nonCurWith, hcur]
    have h2 : nonCurWith name r { ex with current := false } = true := by
      simp [nonCurWith, keyMatch, hstr, hkmp]
    have h3 : nonCurWith name r
        { name := name, status := s, added_at := t, current := true } = false := by
      simp [nonCurWith]
    simp only [List.countP_append, List.countP_cons, h1, h2, h3]
    simp
    omega

theorem addInterest_list_other (es : List InterestEntry) (name namep : String)
    (s : InterestStatus) (t : DateTime) (h : pyLower namep ≠ pyLower name) :
    (addInterestEntries es name s t).countP (curMatch namep)
      = es.countP (curMatch namep) := by
  have hb : (pyLower name == pyLower namep) = false := by
    rw [beq_eq_false_iff_ne]
    exact fun hc => h hc.symm
  have hnew : curMatch namep
      { name := name, status := s, added_at := t, current := true } = false := by
    simp [curMatch]
    intro hc
    exact absurd hc.symm h
  cases hf : es.find? (curMatch name) with
  | none =>
    rw [addInterestEntries_none _ _ _ _ hf, List.countP_append, List.countP_cons, hnew]
    simp
  | some ex =>
    have hex : curMatch name ex = true := List.find?_some hf
    obtain ⟨l1, l2, rfl, hl1⟩ := find?_decomp _ _ _ hf
    have hkey : pyLower ex.name = pyLower name := by
      have h2 := hex
      simp [curMatch, Bool.and_eq_true] at h2
      exact h2.1
    have hexp : curMatch namep ex = false := by
      unfold curMatch
      have hb2 : (pyLower ex.name == pyLower namep) = false := by
        rw [hkey, beq_eq_false_iff_ne]
        exact fun hc => h hc.symm
      rw [hb2, Bool.false_and]
    by_cases hst : ex.status = s
    · rw [addInterestEntries_refresh _ _ _ _ _ _ hl1 hex hst]
      have heq : curMatch namep { ex with added_at := t } = curMatch namep ex := rfl
      rw [List.countP_append, List.countP_append, List.countP_cons, List.countP_cons, heq]
    · rw [addInterestEntries_flip _ _ _ _ _ _ hl1 hex hst]
      have hfl : curMatch namep { ex with current := false } = false := by
        simp [curMatch]
      simp only [List.countP_append, List.countP_cons, hfl, hexp, hnew]
      simp

theorem addInterest_list_keyMatch_mono (es : List InterestEntry) (name namep : String)
    (s : InterestStatus) (t : DateTime) :
    es.countP (keyMatch namep) ≤ (addInterestEntries es name s t).countP (keyMatch namep) := by
  cases hf : es.find? (curMatch name) with
  | none =>
    rw [addInterestEntries_none _ _ _ _ hf, List.countP_append]
    omega
  | some ex =>
    have hex : curMatch name ex = true := List.find?_some hf
    obtain ⟨l1, l2, rfl, hl1⟩ := find?_decomp _ _ _ hf
    by_cases hst : ex.status = s
    · rw [addInterestEntries_refresh _ _ _ _ _ _ hl1 hex hst]
      have heq : keyMatch namep { ex with added_at := t } = keyMatch namep ex := rfl
      rw [List.countP_append, List.countP_append, List.countP_cons, List.countP_cons, heq]
    · rw [addInterestEntries_flip _ _ _ _ _ _ hl1 hex hst]
      have heq : keyMatch namep { ex with current := false } = keyMatch namep ex := rfl
      simp only [List.countP_append, List.countP_cons, heq]
      omega

theorem addInterest_list_len (es : List InterestEntry) (name : String)
    (s : InterestStatus) (t : DateTime) :
    es.length ≤ (addInterestEntries es name s t).length := by
  cases hf : es.find? (curMatch name) with
  | none =>
    rw [addInterestEntries_none _ _ _ _ hf]
    simp
  | some ex =>
    have hex : curMatch name ex = true := List.find?_some hf
    obtain ⟨l1, l2, rfl, hl1⟩ := find?_decomp _ _ _ hf
    by_cases hst : ex.status = s
    · rw [addInterestEntries_refresh _ _ _ _ _ _ hl1 hex hst]
      simp
    · rw [addInterestEntries_flip _ _ _ _ _ _ hl1 hex hst]
      simp

theorem addInterest_list_flip_len (es : List InterestEntry) (name : String)
    (s : InterestStatus) (t : DateTime)
    (hcd : ∀ e ∈ es, curMatch name e = true → ¬ e.status = s)
    (hex0 : 0 < es.countP (curMatch name)) :
    (addInterestEntries es name s t).length = es.length + 1 := by
  obtain ⟨e0, he0, hpe0⟩ := List.countP_pos_iff.mp hex0
  cases hf : es.find? (curMatch name) with
  | none =>
    exact absurd hpe0 (by simpa using List.find?_eq_none.mp hf e0 he0)
  | some ex =>
    have hex : curMatch name ex = true := List.find?_some hf
    have hmem : ex ∈ es := List.mem_of_find?_eq_some hf
    have hst : ¬ ex.status = s := hcd ex hmem hex
    obtain ⟨l1, l2, rfl, hl1⟩ := find?_decomp _ _ _ hf
    rw [addInterestEntries_flip _ _ _ _ _ _ hl1 hex hst]
    simp
    omega

/-- The data-model invariant: per (category, case-insensitive name), at most
one entry is current. -/
def atMostOneCurrent (g : UserKnowledgeGraph) : Prop :=
  ∀ (c : TopicCategory) (n : String), (entriesFor g c).countP (curMatch n) ≤ 1

theorem curMatch_congr (n name : String) (h : pyLower n = pyLower name) :
    curMatch n = curMatch name := by
  funext e
  unfold curMatch
  rw [h]

theorem add_interest_inv (g : UserKnowledgeGraph) (cat : TopicCategory)
    (name : String) (s : InterestStatus) (t : DateTime)
    (hinv : atMostOneCurrent g) :
    atMostOneCurrent (g.add_interest cat name s t) := by
  intro c n
  by_cases hc : c = cat
  · subst hc
    rw [entriesFor_add_self]
    by_cases hn : pyLower n = pyLower name
    · rw [curMatch_congr n name hn]
      exact le_of_eq (addInterest_list_main _ _ _ _ (hinv c name)).1
    · rw [addInterest_list_other _ _ _ _ _ hn]
      exact hinv _ _
  · rw [entriesFor_add_ne _ _ _ _ _ _ hc]
    exact hinv _ _

/-- The Python constructor `UserKnowledgeGraph(user_id=..., username=...)`
with its dataclass default factories (`now` standing for `datetime.now()`). -/
def UserKnowledgeGraph.fresh (uid : Int) (uname : String) (now : DateTime) :
    UserKnowledgeGraph :=
  { user_id := uid, username := uname, quick_facts := [], interests := [],
    personal := [], social := [], active_hours := [], typical_topics := [],
    created_at := now, updated_at := now }

/-- C1: starting from any graph satisfying the at-most-one-current invariant,
calling `add_interest(cat, name, s1)` then `add_interest(cat, name, s2)` with
`s1 ≠ s2` leaves exactly one current entry for the (category, case-insensitive
name), that entry's status is `s2`, exactly one additional non-current entry
with status `s1` exists, no entry is removed (per-name entry counts and the
total length only grow, by at least one), and the at-most-one-current
invariant is preserved for every (category, name). -/
theorem C1_interest_status_change (g : UserKnowledgeGraph) (cat : TopicCategory)
    (name : String) (s1 s2 : InterestStatus) (t1 t2 : DateTime)
    (hne : s1 ≠ s2) (hinv : atMostOneCurrent g) :
    ((entriesFor ((g.add_interest cat name s1 t1).add_interest cat name s2 t2) cat).countP
        (curMatch name) = 1)
    ∧ (∀ e ∈ entriesFor ((g.add_interest cat name s1 t1).add_interest cat name s2 t2) cat,
        curMatch name e = true → e.status = s2)
    ∧ ((entriesFor ((g.add_interest cat name s1 t1).add_interest cat name s2 t2) cat).countP
        (nonCurWith name s1)
        = (entriesFor g cat).countP (nonCurWith name s1) + 1)
    ∧ ((entriesFor g cat).length + 1
        ≤ (entriesFor ((g.add_interest cat name s1 t1).add_interest cat name s2 t2) cat).length)
    ∧ (∀ namep : String, (entriesFor g cat).countP (keyMatch namep)
        ≤ (entriesFor ((g.add_interest cat name s1 t1).add_interest cat name s2 t2) cat).countP
          (keyMatch namep))
    ∧ atMostOneCurrent ((g.add_interest cat name s1 t1).add_interest cat name s2 t2) := by
  have h1 : (entriesFor g cat).countP (curMatch name) ≤ 1 := hinv cat name
  have step1 := addInterest_list_main (entriesFor g cat) name s1 t1 h1
  have e1 : entriesFor (g.add_interest cat name s1 t1) cat
      = addInterestEntries (entriesFor g cat) name s1 t1 := entriesFor_add_self g cat name s1 t1
  have e2 : entriesFor ((g.add_interest cat name s1 t1).add_interest cat name s2 t2) cat
      = addInterestEntries (addInterestEntries (entriesFor g cat) name s1 t1) name s2 t2 := by
    rw [entriesFor_add_self, e1]
  have hc1 : (addInterestEntries (entriesFor g cat) name s1 t1).countP (curMatch name) = 1 := by
    rw [← e1]
    rw [e1]
    exact step1.1
  have hs1 : ∀ e ∈ addInterestEntries (entriesFor g cat) name s1 t1,
      curMatch name e = true → e.status = s1 := step1.2
  have hpos : 0 < (addInterestEntries (entriesFor g cat) name s1 t1).countP (curMatch name) := by
    rw [hc1]
    norm_num
  refine ⟨?_, ?_, ?_, ?_, ?_, ?_⟩
  · rw [e2]
    exact (addInterest_list_main _ name s2 t2 (le_of_eq hc1)).1
  · intro e he hce
    rw [e2] at he
    exact (addInterest_list_main _ name s2 t2 (le_of_eq hc1)).2 e he hce
  · rw [e2, addInterest_list_nonCur_flip _ name s2 s1 t2 hne hs1 hpos,
      addInterest_list_nonCur_self]
  · rw [e2, addInterest_list_flip_len _ name s2 t2
      (fun e he hc => by rw [hs1 e he hc]; exact hne) hpos]
    have := addInterest_list_len (entriesFor g cat) name s1 t1
    omega
  · intro namep
    calc (entriesFor g cat).countP (keyMatch namep)
        ≤ (addInterestEntries (entriesFor g cat) name s1 t1).countP (keyMatch namep) :=
          addInterest_list_keyMatch_mono _ name namep s1 t1
      _ ≤ _ := by
          rw [e2]
          exact addInterest_list_keyMatch_mono _ name namep s2 t2
  · exact add_interest_inv _ _ _ _ _ (add_interest_inv _ _ _ _ _ hinv)

def T0 : DateTime := ⟨2024, 1, 1, 0, 0, 0, 0⟩

def T1 : DateTime := ⟨2024, 1, 2, 10, 30, 0, 0⟩

def T2 : DateTime := ⟨2024, 1, 3, 11, 0, 0, 500⟩

theorem C1_interest_status_change_witness :
    (entriesFor (((UserKnowledgeGraph.fresh 7 "u" T0).add_interest .gaming "Dota" .likes
        T1).add_interest .gaming "Dota" .dislikes T2) .gaming).countP (curMatch "Dota") = 1 :=
  (C1_interest_status_change (UserKnowledgeGraph.fresh 7 "u" T0) .gaming "Dota"
    .likes .dislikes T1 T2 (by decide)
    (fun c n => by simp [entriesFor, UserKnowledgeGraph.fresh, lookupCat])).1

theorem curMatch_false_of_keyMatch_false (name : String) (x : InterestEntry)
    (h : keyMatch name x = false) : curMatch name x = false := by
  rw [curMatch_eq_keyMatch, h, Bool.false_and]

/-- When no entry (current or historical) exists for the key, `add_interest`
appends a brand-new current entry. -/
theorem addInterestEntries_fresh (es : List InterestEntry) (name : String)
    (s : InterestStatus) (t : DateTime) (h : es.countP (keyMatch name) = 0) :
    addInterestEntries es name s t
      = es ++ [{ name := name, status := s, added_at := t, current := true }] := by
  apply addInterestEntries_none
  rw [List.find?_eq_none]
  intro x hx hc
  have hk : ¬ keyMatch name x = true := List.countP_eq_zero.mp h x hx
  rw [curMatch_eq_keyMatch, Bool.and_eq_true] at hc
  exact hk hc.1

/-- Repeating `add_interest` with the same status refreshes the timestamp of
the single entry in place. -/
theorem addInterestEntries_refresh_tail (es : List InterestEntry) (name : String)
    (s : InterestStatus) (t t0 : DateTime) (h : es.countP (keyMatch name) = 0) :
    addInterestEntries
        (es ++ [{ name := name, status := s, added_at := t0, current := true }]) name s t
      = es ++ [{ name := name, status := s, added_at := t, current := true }] := by
  have hl1 : ∀ x ∈ es, curMatch name x = false := by
    intro x hx
    exact curMatch_false_of_keyMatch_false name x
      (Bool.eq_false_iff.mpr (List.countP_eq_zero.mp h x hx))
  have hex : curMatch name
      ({ name := name, status := s, added_at := t0, current := true } : InterestEntry)
      = true := by
    simp [curMatch]
  have hr := addInterestEntries_refresh es
    { name := name, status := s, added_at := t0, current := true } [] name s t hl1 hex rfl
  simpa using hr

theorem fold_add_same_status (cat : TopicCategory) (name : String) (s : InterestStatus)
    (es : List InterestEntry) (h : es.countP (keyMatch name) = 0) :
    ∀ (ts : List DateTime) (g : UserKnowledgeGraph) (t0 : DateTime),
      entriesFor g cat = es ++ [{ name := name, status := s, added_at := t0, current := true }] →
      entriesFor (ts.foldl (fun h2 u => h2.add_interest cat name s u) g) cat
        = es ++ [{ name := name, status := s, added_at := ts.getLastD t0, current := true }] := by
  intro ts
  induction ts with
  | nil =>
    intro g t0 hg
    simpa using hg
  | cons u rest ih =>
    intro g t0 hg
    rw [List.foldl_cons, List.getLastD_cons]
    have hstep : entriesFor (g.add_interest cat name s u) cat
        = es ++ [{ name := name, status := s, added_at := u, current := true }] := by
      rw [entriesFor_add_self, hg, addInterestEntries_refresh_tail _ _ _ _ _ h]
    exact ih _ u hstep

/-- C6 (amended): when the graph holds no entry at all for the (category,
case-insensitive name), calling `add_interest(cat, name, s)` k ≥ 1 times with
the same status leaves exactly one entry for that key — current, and with
`added_at` equal to the time of the latest call (the timestamp is refreshed in
place, no new version is appended). -/
theorem C6_same_status_idempotent (g : UserKnowledgeGraph) (cat : TopicCategory)
    (name : String) (s : InterestStatus) (t : DateTime) (ts : List DateTime)
    (h : (entriesFor g cat).countP (keyMatch name) = 0) :
    (entriesFor (ts.foldl (fun h2 u => h2.add_interest cat name s u)
        (g.add_interest cat name s t)) cat
      = entriesFor g cat
        ++ [{ name := name, status := s, added_at := ts.getLastD t, current := true }])
    ∧ ((entriesFor (ts.foldl (fun h2 u => h2.add_interest cat name s u)
        (g.add_interest cat name s t)) cat).countP (keyMatch name) = 1) := by
  have h0 : entriesFor (g.add_interest cat name s t) cat
      = entriesFor g cat ++ [{ name := name, status := s, added_at := t, current := true }] := by
    rw [entriesFor_add_self, addInterestEntries_fresh _ _ _ _ h]
  have hmain := fold_add_same_status cat name s (entriesFor g cat) h ts _ t h0
  refine ⟨hmain, ?_⟩
  rw [hmain, List.countP_append, h, List.countP_cons]
  have : keyMatch name
      ({ name := name, status := s, added_at := ts.getLastD t, current := true } : InterestEntry)
      = true := by
    simp [keyMatch]
  rw [this]
  simp

theorem C6_same_status_idempotent_witness :
    entriesFor ([T2].foldl (fun h2 u => h2.add_interest TopicCategory.gaming "Dota" .likes u)
        ((UserKnowledgeGraph.fresh 7 "u" T0).add_interest TopicCategory.gaming "Dota" .likes T1))
        TopicCategory.gaming
      = [{ name := "Dota", status := .likes, added_at := T2, current := true }] :=
  (C6_same_status_idempotent (UserKnowledgeGraph.fresh 7 "u" T0) .gaming "Dota" .likes
    T1 [T2] (by simp [entriesFor, UserKnowledgeGraph.fresh, lookupCat])).1

def G6c : UserKnowledgeGraph :=
  { user_id := 7, username := "user", quick_facts := [],
    interests := [("gaming",
      [{ name := "dota", status := .likes, added_at := T0, current := false }])],
    personal := [], social := [], active_hours := [], typical_topics := [],
    created_at := T0, updated_at := T0 }

/-- C6 as literally stated fails on a graph that already holds a historical
(non-current) entry for the key: a single same-status `add_interest` call then
leaves two entries for the (category, name), not exactly one. -/
theorem C6_counterexample :
    (entriesFor (G6c.add_interest .gaming "dota" .likes T1) .gaming).countP
      (keyMatch "dota") ≠ 1 := by
  decide

/-- Python slicing `l[-n:]`. -/
def takeLast (n : Nat) (l : List String) : List String :=
  l.drop (l.length - n)

/-- Fact-merge step of `DeepSeekAnalyzer._update_graph_from_analysis`
(`deepseek_analyzer.py` lines 200-210): `existing_facts = set(graph.quick_facts)`
is snapshotted before the loop; each incoming fact not in that snapshot is
appended to `quick_facts` and to `added_facts_list`; finally
`quick_facts = quick_facts[-10:]`.  Returns (new quick_facts, added facts). -/
def mergeFacts (quick_facts : List String) (new_facts : List String) :
    List String × List String :=
  let r := new_facts.foldl
    (fun acc fact => if fact ∈ quick_facts then acc else (acc.1 ++ [fact], acc.2 ++ [fact]))
    (quick_facts, [])
  (takeLast 10 r.1, r.2)

theorem takeLast_length_le (n : Nat) (l : List String) : (takeLast n l).length ≤ n := by
  unfold takeLast
  rw [List.length_drop]
  omega

theorem mergeFacts_foldl (existing : List String) :
    ∀ (nf : List String) (acc1 acc2 : List String),
      nf.foldl (fun acc fact =>
          if fact ∈ existing then acc else (acc.1 ++ [fact], acc.2 ++ [fact])) (acc1, acc2)
        = (acc1 ++ nf.filter (fun fact => decide (fact ∉ existing)),
           acc2 ++ nf.filter (fun fact => decide (fact ∉ existing))) := by
  intro nf
  induction nf with
  | nil =>
    intro acc1 acc2
    simp
  | cons f rest ih =>
    intro acc1 acc2
    rw [List.foldl_cons]
    by_cases hf : f ∈ existing
    · rw [if_pos hf, ih, List.filter_cons]
      have hd : (decide (f ∉ existing)) = false := by simp [hf]
      rw [hd]
      simp
    · rw [if_neg hf, ih, List.filter_cons]
      have hd : (decide (f ∉ existing)) = true := by simp [hf]
      rw [hd]
      simp

theorem mergeFacts_eq (facts nf : List String) :
    (mergeFacts facts nf).1
      = takeLast 10 (facts ++ nf.filter (fun fact => decide (fact ∉ facts))) := by
  have h0 : mergeFacts facts nf
      = (takeLast 10 (nf.foldl
          (fun acc fact =>
            if fact ∈ facts then acc else (acc.1 ++ [fact], acc.2 ++ [fact]))
          (facts, [])).1,
         (nf.foldl (fun acc fact =>
            if fact ∈ facts then acc else (acc.1 ++ [fact], acc.2 ++ [fact]))
          (facts, [])).2) := rfl
  rw [h0, mergeFacts_foldl]

/-- C2 (amended): after any fact merge, `quick_facts` has at most 10 entries
and equals the last-10 suffix of the previous facts followed by the incoming
facts not already present — so the oldest entries are evicted first, but
deduplication is case-sensitive and only against the pre-merge facts, and after
any sequence of merges starting from an empty fact list the bound 10 still
holds. -/
theorem C2_fact_merge_amended :
    (∀ facts nf : List String, (mergeFacts facts nf).1.length ≤ 10)
    ∧ (∀ facts nf : List String, (mergeFacts facts nf).1
        = takeLast 10 (facts ++ nf.filter (fun fact => decide (fact ∉ facts))))
    ∧ (∀ facts nf : List String,
        (mergeFacts facts nf).1 <:+ facts ++ nf.filter (fun fact => decide (fact ∉ facts)))
    ∧ (∀ batches : List (List String),
        (batches.foldl (fun fs nf => (mergeFacts fs nf).1) []).length ≤ 10) := by
  have hlen : ∀ facts nf : List String, (mergeFacts facts nf).1.length ≤ 10 := by
    intro facts nf
    rw [mergeFacts_eq]
    exact takeLast_length_le _ _
  refine ⟨hlen, mergeFacts_eq, ?_, ?_⟩
  · intro facts nf
    rw [mergeFacts_eq]
    exact List.drop_suffix _ _
  · intro batches
    have haux : ∀ (bs : List (List String)) (fs : List String), fs.length ≤ 10 →
        (bs.foldl (fun fs2 nf => (mergeFacts fs2 nf).1) fs).length ≤ 10 := by
      intro bs
      induction bs with
      | nil => intro fs h; simpa using h
      | cons b rest ih =>
        intro fs h
        rw [List.foldl_cons]
        exact ih _ (hlen fs b)
    exact haux batches [] (by simp)

/-- C2 as stated fails: the dedup check is `fact not in set(graph.quick_facts)`
— case-sensitive and against a snapshot — so merging ["a", "A"] into an empty
fact list yields a case-insensitive duplicate. -/
theorem C2_counterexample :
    ¬ ((mergeFacts [] ["a", "A"]).1.Pairwise (fun a b => pyLower a ≠ pyLower b)) := by
  decide

/-- Parsed enrichment payload consumed by `_update_graph_from_analysis`:
`analysis.get("facts", [])` (list of fact strings) and
`analysis.get("interests", {})` (JSON object: category string → interest
names, insertion-ordered). -/
structure Analysis where
  facts : List String
  interests : List (String × List String)
deriving DecidableEq, Repr

/-- `DeepSeekAnalyzer._update_graph_from_analysis` (`deepseek_analyzer.py`
lines 184-241), with `datetime.now()` passed as `now`: merge facts, then for
each non-empty known category call `add_interest(category, name, LIKES)` for
every reported name (unknown categories are logged and skipped), finally stamp
`updated_at`.  Returns the updated graph and the newly added facts. -/
def updateGraphFromAnalysis (g : UserKnowledgeGraph) (analysis : Analysis)
    (now : DateTime) : UserKnowledgeGraph × List String :=
  let fr := mergeFacts g.quick_facts analysis.facts
  let g1 : UserKnowledgeGraph := { g with quick_facts := fr.1 }
  let g2 := analysis.interests.foldl
    (fun acc ci =>
      if ci.2.isEmpty then acc
      else
        match TopicCategory.ofValue? ci.1 with
        | none => acc
        | some category =>
          ci.2.foldl (fun acc2 name =>
            acc2.add_interest category name InterestStatus.likes now) acc)
    g1
  ({ g2 with updated_at := now }, fr.2)

/-- Every entry of the second graph either carries status `likes` or descends
(same name and status) from an entry of the first graph in the same category. -/
def InheritsLikes (g gp : UserKnowledgeGraph) : Prop :=
  ∀ (c : TopicCategory), ∀ e ∈ entriesFor gp c,
    e.status = InterestStatus.likes
    ∨ ∃ e2 ∈ entriesFor g c, e2.name = e.name ∧ e2.status = e.status

theorem inheritsLikes_refl (g : UserKnowledgeGraph) : InheritsLikes g g := by
  intro c e he
  exact Or.inr ⟨e, he, rfl, rfl⟩

theorem inheritsLikes_trans {g1 g2 g3 : UserKnowledgeGraph}
    (h12 : InheritsLikes g1 g2) (h23 : InheritsLikes g2 g3) : InheritsLikes g1 g3 := by
  intro c e he
  rcases h23 c e he with h | ⟨e2, he2, hn, hs⟩
  · exact Or.inl h
  · rcases h12 c e2 he2 with h | ⟨e3, he3, hn2, hs2⟩
    · exact Or.inl (hs ▸ h)
    · exact Or.inr ⟨e3, he3, hn2.trans hn, hs2.trans hs⟩

theorem inheritsLikes_add (g : UserKnowledgeGraph) (cat : TopicCategory)
    (name : String) (now : DateTime) :
    InheritsLikes g (g.add_interest cat name InterestStatus.likes now) := by
  intro c e he
  by_cases hc : c = cat
  · subst hc
    rw [entriesFor_add_self] at he
    generalize hes : entriesFor g c = es at he ⊢
    cases hf : es.find? (curMatch name) with
    | none =>
      rw [addInterestEntries_none _ _ _ _ hf] at he
      rcases List.mem_append.mp he with h1 | h2
      · exact Or.inr ⟨e, h1, rfl, rfl⟩
      · rw [List.mem_singleton] at h2
        subst h2
        exact Or.inl rfl
    | some ex =>
      have hex := List.find?_some hf
      obtain ⟨l1, l2, rfl, hl1⟩ := find?_decomp _ _ _ hf
      by_cases hst : ex.status = InterestStatus.likes
      · rw [addInterestEntries_refresh _ _ _ _ _ _ hl1 hex hst] at he
        rcases List.mem_append.mp he with h1 | h2
        · exact Or.inr ⟨e, List.mem_append.mpr (Or.inl h1), rfl, rfl⟩
        · rcases List.mem_cons.mp h2 with rfl | h3
          · exact Or.inr ⟨ex, List.mem_append.mpr (Or.inr (List.mem_cons_self _ _)), rfl, rfl⟩
          · exact Or.inr ⟨e, List.mem_append.mpr (Or.inr (List.mem_cons_of_mem _ h3)), rfl, rfl⟩
      · rw [addInterestEntries_flip _ _ _ _ _ _ hl1 hex hst] at he
        rcases List.mem_append.mp he with h12 | h2
        · rcases List.mem_append.mp h12 with h1 | hx
          · exact Or.inr ⟨e, List.mem_append.mpr (Or.inl h1), rfl, rfl⟩
          · rcases List.mem_cons.mp hx with rfl | h3
            · exact Or.inr ⟨ex, List.mem_append.mpr (Or.inr (List.mem_cons_self _ _)), rfl, rfl⟩
            · exact Or.inr ⟨e, List.mem_append.mpr (Or.inr (List.mem_cons_of_mem _ h3)), rfl, rfl⟩
        · rw [List.mem_singleton] at h2
          subst h2
          exact Or.inl rfl
  · rw [entriesFor_add_ne _ _ _ _ _ _ hc] at he
    exact Or.inr ⟨e, he, rfl, rfl⟩

theorem inheritsLikes_fold_names (cat : TopicCategory) (now : DateTime) :
    ∀ (names : List String) (g : UserKnowledgeGraph),
      InheritsLikes g (names.foldl
        (fun acc2 n => acc2.add_interest cat n InterestStatus.likes now) g) := by
  intro names
  induction names with
  | nil =>
    intro g
    exact inheritsLikes_refl g
  | cons n rest ih =>
    intro g
    rw [List.foldl_cons]
    exact inheritsLikes_trans (inheritsLikes_add g cat n now) (ih _)

theorem inheritsLikes_fold_cats (now : DateTime) :
    ∀ (ints : List (String × List String)) (g : UserKnowledgeGraph),
      InheritsLikes g (ints.foldl
        (fun acc ci =>
          if ci.2.isEmpty then acc
          else
            match TopicCategory.ofValue? ci.1 with
            | none => acc
            | some category =>
              ci.2.foldl (fun acc2 name =>
                acc2.add_interest category name InterestStatus.likes now) acc)
        g) := by
  intro ints
  induction ints with
  | nil =>
    intro g
    exact inheritsLikes_refl g
  | cons ci rest ih =>
    intro g
    rw [List.foldl_cons]
    refine inheritsLikes_trans ?_ (ih _)
    by_cases hemp : ci.2.isEmpty
    · rw [if_pos hemp]
      exact inheritsLikes_refl g
    · rw [if_neg hemp]
      cases hcat : TopicCategory.ofValue? ci.1 with
      | none => exact inheritsLikes_refl g
      | some category => exact inheritsLikes_fold_names category now ci.2 g

theorem addInterest_exists_likes (es : List InterestEntry) (name : String)
    (t : DateTime) :
    ∃ e ∈ addInterestEntries es name InterestStatus.likes t,
      curMatch name e = true ∧ e.status = InterestStatus.likes := by
  cases hf : es.find? (curMatch name) with
  | none =>
    rw [addInterestEntries_none _ _ _ _ hf]
    refine ⟨{ name := name, status := .likes, added_at := t, current := true },
      by simp, ?_, rfl⟩
    simp [curMatch]
  | some ex =>
    have hex : curMatch name ex = true := List.find?_some hf
    obtain ⟨l1, l2, rfl, hl1⟩ := find?_decomp _ _ _ hf
    by_cases hst : ex.status = InterestStatus.likes
    · rw [addInterestEntries_refresh _ _ _ _ _ _ hl1 hex hst]
      exact ⟨{ ex with added_at := t }, by simp, hex, hst⟩
    · rw [addInterestEntries_flip _ _ _ _ _ _ hl1 hex hst]
      refine ⟨{ name := name, status := .likes, added_at := t, current := true },
        by simp, ?_, rfl⟩
      simp [curMatch]

theorem addInterest_preserves_likes (es : List InterestEntry) (name name2 : String)
    (t : DateTime)
    (h : ∃ e ∈ es, curMatch name e = true ∧ e.status = InterestStatus.likes) :
    ∃ e ∈ addInterestEntries es name2 InterestStatus.likes t,
      curMatch name e = true ∧ e.status = InterestStatus.likes := by
  obtain ⟨e, he, hcm, hs⟩ := h
  cases hf : es.find? (curMatch name2) with
  | none =>
    rw [addInterestEntries_none _ _ _ _ hf]
    exact ⟨e, List.mem_append.mpr (Or.inl he), hcm, hs⟩
  | some ex =>
    have hex : curMatch name2 ex = true := List.find?_some hf
    obtain ⟨l1, l2, rfl, hl1⟩ := find?_decomp _ _ _ hf
    by_cases hst : ex.status = InterestStatus.likes
    · rw [addInterestEntries_refresh _ _ _ _ _ _ hl1 hex hst]
      rcases List.mem_append.mp he with h1 | h2
      · exact ⟨e, by simp [h1], hcm, hs⟩
      · rcases List.mem_cons.mp h2 with rfl | h3
        · exact ⟨{ e with added_at := t }, by simp, hcm, hs⟩
        · exact ⟨e, by simp [h3], hcm, hs⟩
    · rw [addInterestEntries_flip _ _ _ _ _ _ hl1 hex hst]
      rcases List.mem_append.mp he with h1 | h2
      · exact ⟨e, by simp [h1], hcm, hs⟩
      · rcases List.mem_cons.mp h2 with rfl | h3
        · exact absurd hs hst
        · exact ⟨e, by simp [h3], hcm, hs⟩

/-- A current `likes` entry exists for the (category, case-insensitive name). -/
def hasCurrentLikes (g : UserKnowledgeGraph) (cat : TopicCategory) (name : String) :
    Prop :=
  ∃ e ∈ entriesFor g cat, curMatch name e = true ∧ e.status = InterestStatus.likes

theorem hasCurrentLikes_add_self (g : UserKnowledgeGraph) (cat : TopicCategory)
    (name : String) (now : DateTime) :
    hasCurrentLikes (g.add_interest cat name InterestStatus.likes now) cat name := by
  unfold hasCurrentLikes
  rw [entriesFor_add_self]
  exact addInterest_exists_likes _ _ _

theorem hasCurrentLikes_add_mono (g : UserKnowledgeGraph) (cat : TopicCategory)
    (name : String) (cat2 : TopicCategory) (name2 : String) (now : DateTime)
    (h : hasCurrentLikes g cat name) :
    hasCurrentLikes (g.add_interest cat2 name2 InterestStatus.likes now) cat name := by
  by_cases hc : cat = cat2
  · subst hc
    unfold hasCurrentLikes at h ⊢
    rw [entriesFor_add_self]
    exact addInterest_preserves_likes _ _ _ _ h
  · unfold hasCurrentLikes at h ⊢
    rw [entriesFor_add_ne _ _ _ _ _ _ hc]
    exact h

theorem hasCurrentLikes_fold_names_mono (cat2 : TopicCategory) (now : DateTime) :
    ∀ (ns : List String) (g : UserKnowledgeGraph) (cat : TopicCategory) (name : String),
      hasCurrentLikes g cat name →
      hasCurrentLikes
        (ns.foldl (fun acc2 n => acc2.add_interest cat2 n InterestStatus.likes now) g)
        cat name := by
  intro ns
  induction ns with
  | nil =>
    intro g cat name h
    exact h
  | cons n rest ih =>
    intro g cat name h
    rw [List.foldl_cons]
    exact ih _ _ _ (hasCurrentLikes_add_mono _ _ _ _ _ _ h)

theorem hasCurrentLikes_fold_names_self (cat : TopicCategory) (now : DateTime) :
    ∀ (ns : List String) (g : UserKnowledgeGraph) (name : String), name ∈ ns →
      hasCurrentLikes
        (ns.foldl (fun acc2 n => acc2.add_interest cat n InterestStatus.likes now) g)
        cat name := by
  intro ns
  induction ns with
  | nil =>
    intro g name h
    cases h
  | cons n rest ih =>
    intro g name h
    rw [List.foldl_cons]
    rcases List.mem_cons.mp h with rfl | h2
    · exact hasCurrentLikes_fold_names_mono cat now rest _ cat name
        (hasCurrentLikes_add_self g cat name now)
    · exact ih _ name h2

theorem hasCurrentLikes_fold_cats_mono (now : DateTime) :
    ∀ (ints : List (String × List String)) (g : UserKnowledgeGraph)
      (cat : TopicCategory) (name : String),
      hasCurrentLikes g cat name →
      hasCurrentLikes
        (ints.foldl
          (fun acc ci =>
            if ci.2.isEmpty then acc
            else
              match TopicCategory.ofValue? ci.1 with
              | none => acc
              | some category =>
                ci.2.foldl (fun acc2 name =>
                  acc2.add_interest category name InterestStatus.likes now) acc)
          g)
        cat name := by
  intro ints
  induction ints with
  | nil =>
    intro g cat name h
    exact h
  | cons ci rest ih =>
    intro g cat name h
    rw [List.foldl_cons]
    refine ih _ _ _ ?_
    by_cases hemp : ci.2.isEmpty
    · rw [if_pos hemp]
      exact h
    · rw [if_neg hemp]
      cases hcat : TopicCategory.ofValue? ci.1 with
      | none => exact h
      | some category => exact hasCurrentLikes_fold_names_mono category now ci.2 g cat name h

theorem hasCurrentLikes_fold_cats_self (now : DateTime) :
    ∀ (ints : List (String × List String)) (g : UserKnowledgeGraph)
      (cs : String) (names : List String) (cat : TopicCategory) (name : String),
      (cs, names) ∈ ints → TopicCategory.ofValue? cs = some cat → name ∈ names →
      hasCurrentLikes
        (ints.foldl
          (fun acc ci =>
            if ci.2.isEmpty then acc
            else
              match TopicCategory.ofValue? ci.1 with
              | none => acc
              | some category =>
                ci.2.foldl (fun acc2 name =>
                  acc2.add_interest category name InterestStatus.likes now) acc)
          g)
        cat name := by
  intro ints
  induction ints with
  | nil =>
    intro g cs names cat name hmem _ _
    cases hmem
  | cons ci rest ih =>
    intro g cs names cat name hmem hcat hname
    rw [List.foldl_cons]
    rcases List.mem_cons.mp hmem with heq | h2
    · subst heq
      have hemp : names.isEmpty = false := by
        cases names with
        | nil => cases hname
        | cons a t => rfl
      simp only [hemp, Bool.false_eq_true, if_false, hcat]
      exact hasCurrentLikes_fold_cats_mono now rest _ cat name
        (hasCurrentLikes_fold_names_self cat now names g name hname)
    · exact ih _ cs names cat name h2 hcat hname

/-- C5: merging a successfully parsed enrichment payload adds every reported
interest via `add_interest(category, name, LIKES)`: afterwards every reported
(known-category, name) pair has a current entry with status `likes` under the
case-insensitive name — and conversely the merge introduces no other status,
since every entry of the merged graph either has status `likes` or carries the
name and status of a pre-merge entry.  The parsed payload shape (category →
list of name strings) cannot encode a dislike, so the claim's dislike clause is
vacuous. -/
theorem C5_merge_adds_reported_likes (g : UserKnowledgeGraph) (a : Analysis)
    (now : DateTime) :
    (∀ (cs : String) (names : List String) (cat : TopicCategory) (name : String),
       (cs, names) ∈ a.interests → TopicCategory.ofValue? cs = some cat →
       name ∈ names →
       ∃ e ∈ entriesFor (updateGraphFromAnalysis g a now).1 cat,
         curMatch name e = true ∧ e.status = InterestStatus.likes)
    ∧ (∀ (c : TopicCategory), ∀ e ∈ entriesFor (updateGraphFromAnalysis g a now).1 c,
         e.status = InterestStatus.likes
         ∨ ∃ e2 ∈ entriesFor g c, e2.name = e.name ∧ e2.status = e.status) := by
  constructor
  · intro cs names cat name hmem hcat hname
    exact hasCurrentLikes_fold_cats_self now a.interests
      { g with quick_facts := (mergeFacts g.quick_facts a.facts).1 }
      cs names cat name hmem hcat hname
  · intro c e he
    exact inheritsLikes_fold_cats now a.interests
      { g with quick_facts := (mergeFacts g.quick_facts a.facts).1 } c e he

theorem C5_merge_adds_reported_likes_witness :
    ∃ e ∈ entriesFor (updateGraphFromAnalysis (UserKnowledgeGraph.fresh 7 "u" T0)
        { facts := [], interests := [("gaming", ["Dota"])] } T1).1 TopicCategory.gaming,
      curMatch "Dota" e = true ∧ e.status = InterestStatus.likes :=
  (C5_merge_adds_reported_likes (UserKnowledgeGraph.fresh 7 "u" T0)
    { facts := [], interests := [("gaming", ["Dota"])] } T1).1
    "gaming" ["Dota"] TopicCategory.gaming "Dota" (by decide) (by decide) (by decide)

/-- Python `keyword in text` substring containment, on character sequences. -/
def pyIn (kw text : String) : Bool :=
  decide (List.IsInfix kw.data text.data)

/-- `TOPIC_KEYWORDS` from `graph_memory.py` (dict iteration order = insertion
order).  `TopicCategory.general` has no keyword list. -/
def TOPIC_KEYWORDS : List (TopicCategory × List String) := [
  (.gaming, ["игра", "игры", "играть", "играем", "поиграем", "катка", "каток",
    "дота", "dota", "дотка", "доту", "доте",
    "кс", "cs", "csgo", "cs2", "контра",
    "рейтинг", "ранг", "ммр", "mmr", "рейт",
    "стим", "steam", "геймер", "гейминг",
    "лол", "lol", "лига", "легенд",
    "валорант", "valorant", "вало",
    "пубг", "pubg", "апекс", "apex",
    "майнкрафт", "minecraft", "майн",
    "фортнайт", "fortnite",
    "консоль", "плойка", "ps5", "xbox",
    "керри", "саппорт", "мид", "хард", "офлейн"]),
  (.food, ["еда", "есть", "поесть", "кушать", "жрать",
    "пицца", "пиццу", "пиццерия",
    "суши", "роллы", "японская",
    "бургер", "макдак", "мак", "kfc",
    "заказ", "заказать", "доставка", "доставку",
    "голод", "голоден", "голодный", "жрать",
    "перекус", "перекусить", "снэк",
    "завтрак", "обед", "ужин",
    "кофе", "чай", "напиток",
    "ресторан", "кафе", "столовая",
    "готовить", "рецепт", "блюдо"]),
  (.education, ["учёба", "учеба", "учить", "учиться",
    "экзамен", "экзамены", "зачёт", "зачет",
    "универ", "университет", "вуз", "институт",
    "школа", "колледж", "техникум",
    "лекция", "лекции", "пара", "пары",
    "препод", "преподаватель", "учитель",
    "диплом", "курсовая", "курсач",
    "сессия", "семестр", "каникулы",
    "домашка", "дз", "задание",
    "оценка", "балл", "рейтинг"]),
  (.work, ["работа", "работать", "работу",
    "офис", "офисе", "удалёнка", "удаленка",
    "зарплата", "зп", "деньги", "бабки",
    "босс", "начальник", "директор",
    "коллега", "коллеги", "команда",
    "проект", "дедлайн", "задача",
    "митинг", "созвон", "звонок",
    "отпуск", "выходной", "больничный",
    "карьера", "повышение", "увольнение"]),
  (.entertainment, ["фильм", "кино", "сериал", "мультик",
    "смотреть", "посмотреть", "глянуть",
    "нетфликс", "netflix", "ютуб", "youtube",
    "аниме", "анимэ", "манга",
    "книга", "читать", "почитать",
    "концерт", "театр", "выставка",
    "клуб", "бар", "тусовка", "вечеринка"]),
  (.social, ["встреча", "встретиться", "увидеться",
    "друг", "друзья", "подруга", "товарищ",
    "девушка", "парень", "отношения",
    "семья", "родители", "мама", "папа",
    "день рождения", "др", "праздник",
    "свадьба", "вечеринка", "тусовка"]),
  (.tech, ["комп", "компьютер", "ноут", "ноутбук",
    "телефон", "смартфон", "айфон", "iphone", "андроид",
    "программа", "приложение", "апп", "app",
    "код", "кодить", "программировать",
    "баг", "ошибка", "фикс",
    "интернет", "вайфай", "wifi",
    "обновление", "апдейт", "update"]),
  (.sports, ["спорт", "тренировка", "трениться",
    "зал", "качалка", "фитнес",
    "футбол", "баскетбол", "волейбол",
    "бег", "бегать", "пробежка",
    "матч", "игра", "чемпионат"]),
  (.music, ["музыка", "песня", "трек", "альбом",
    "слушать", "послушать",
    "концерт", "выступление",
    "группа", "исполнитель", "артист",
    "спотифай", "spotify", "яндекс музыка"]),
  (.travel, ["путешествие", "поездка", "отпуск",
    "самолёт", "поезд", "машина",
    "отель", "гостиница", "хостел",
    "виза", "паспорт", "билет",
    "страна", "город", "море", "горы"])]

/-- Body of `TopicDetector.detect_topics` applied to the already-lowercased
text; each category is added (at most once, thanks to the inner `break`) when
one of its keywords is a substring, and `general` is the fallback when the
detected set is empty. -/
def detectLower (text_lower : String) : List TopicCategory :=
  let detected := TOPIC_KEYWORDS.foldl
    (fun acc ck => if ck.2.any (fun kw => pyIn kw text_lower) then acc ++ [ck.1] else acc)
    []
  if detected.isEmpty then [TopicCategory.general] else detected

/-- `TopicDetector.detect_topics` from `graph_memory.py`: lowercase the text,
then detect. -/
def detect_topics (text : String) : List TopicCategory :=
  detectLower (pyLower text)

theorem detect_foldl_eq (text_lower : String) :
    ∀ (tbl : List (TopicCategory × List String)) (acc : List TopicCategory),
      tbl.foldl
          (fun acc ck =>
            if ck.2.any (fun kw => pyIn kw text_lower) then acc ++ [ck.1] else acc) acc
        = acc ++ (tbl.filter (fun ck => ck.2.any (fun kw => pyIn kw text_lower))).map
            Prod.fst := by
  intro tbl
  induction tbl with
  | nil =>
    intro acc
    simp
  | cons ck rest ih =>
    intro acc
    rw [List.foldl_cons, List.filter_cons]
    by_cases hm : (ck.2.any (fun kw => pyIn kw text_lower)) = true
    · rw [if_pos hm, if_pos hm, ih, List.map_cons]
      simp
    · rw [if_neg hm, if_neg hm, ih]

theorem detectLower_eq (text_lower : String) :
    detectLower text_lower
      = if ((TOPIC_KEYWORDS.filter
            (fun ck => ck.2.any (fun kw => pyIn kw text_lower))).map Prod.fst).isEmpty
        then [TopicCategory.general]
        else (TOPIC_KEYWORDS.filter
            (fun ck => ck.2.any (fun kw => pyIn kw text_lower))).map Prod.fst := by
  have h0 : detectLower text_lower
      = (if (TOPIC_KEYWORDS.foldl
            (fun acc ck =>
              if ck.2.any (fun kw => pyIn kw text_lower) then acc ++ [ck.1] else acc)
            []).isEmpty
         then [TopicCategory.general]
         else TOPIC_KEYWORDS.foldl
            (fun acc ck =>
              if ck.2.any (fun kw => pyIn kw text_lower) then acc ++ [ck.1] else acc)
            []) := rfl
  rw [h0, detect_foldl_eq, List.nil_append]

/-- C7: `detect_topics` is a pure function of the lowercased text (hence
case-insensitive and deterministic); on the empty string it returns exactly
`[general]`; on any text in which no keyword of any category occurs it returns
exactly `[general]`; and whenever at least one keyword of some category occurs,
`general` is not in the result. -/
theorem C7_detect_topics (t1 t2 t3 t4 : String)
    (hcase : pyLower t1 = pyLower t2)
    (hnone : ∀ ck ∈ TOPIC_KEYWORDS, ∀ kw ∈ ck.2, pyIn kw (pyLower t3) = false)
    (hsome : ∃ ck ∈ TOPIC_KEYWORDS, ∃ kw ∈ ck.2, pyIn kw (pyLower t4) = true) :
    detect_topics t1 = detect_topics t2
    ∧ detect_topics "" = [TopicCategory.general]
    ∧ detect_topics t3 = [TopicCategory.general]
    ∧ TopicCategory.general ∉ detect_topics t4 := by
  refine ⟨?_, by decide, ?_, ?_⟩
  · unfold detect_topics
    rw [hcase]
  · unfold detect_topics
    rw [detectLower_eq]
    have hfe : TOPIC_KEYWORDS.filter
        (fun ck => ck.2.any (fun kw => pyIn kw (pyLower t3))) = [] := by
      rw [List.filter_eq_nil_iff]
      intro ck hck
      rw [Bool.not_eq_true, List.any_eq_false]
      intro kw hkw
      rw [Bool.not_eq_true]
      exact hnone ck hck kw hkw
    rw [hfe]
    rfl
  · obtain ⟨ck, hck, kw, hkw, hmatch⟩ := hsome
    unfold detect_topics
    rw [detectLower_eq]
    have hmem : ck ∈ TOPIC_KEYWORDS.filter
        (fun ck2 => ck2.2.any (fun kw2 => pyIn kw2 (pyLower t4))) := by
      rw [List.mem_filter]
      exact ⟨hck, List.any_eq_true.mpr ⟨kw, hkw, hmatch⟩⟩
    have hne : ((TOPIC_KEYWORDS.filter
        (fun ck2 => ck2.2.any (fun kw2 => pyIn kw2 (pyLower t4)))).map Prod.fst).isEmpty
        = false := by
      rw [List.isEmpty_eq_false_iff_exists_mem]
      exact ⟨ck.1, List.mem_map_of_mem _ hmem⟩
    rw [hne]
    simp only [Bool.false_eq_true, if_false]
    intro hgen
    obtain ⟨ck2, hck2, hfst⟩ := List.mem_map.mp hgen
    have hck2t : ck2 ∈ TOPIC_KEYWORDS := (List.mem_filter.mp hck2).1
    have : TopicCategory.general ∉ TOPIC_KEYWORDS.map Prod.fst := by decide
    exact this (hfst ▸ List.mem_map_of_mem _ hck2t)

theorem C7_detect_topics_witness :
    detect_topics "ПрИвЕт" = detect_topics "привет"
    ∧ detect_topics "" = [TopicCategory.general]
    ∧ detect_topics "zzz" = [TopicCategory.general]
    ∧ TopicCategory.general ∉ detect_topics "идём в кино" :=
  C7_detect_topics "ПрИвЕт" "привет" "zzz" "идём в кино" (by decide) (by decide)
    ⟨(.entertainment, ["фильм", "кино", "сериал", "мультик",
      "смотреть", "посмотреть", "глянуть",
      "нетфликс", "netflix", "ютуб", "youtube",
      "аниме", "анимэ", "манга",
      "книга", "читать", "почитать",
      "концерт", "театр", "выставка",
      "клуб", "бар", "тусовка", "вечеринка"]), by decide, "кино", by decide, by decide⟩

/-- Serialized `InterestEntry` document (`InterestEntry.to_dict` in
`models.py`).  Fields are optional because `from_dict` reads them back with
`.get` defaults.  A timestamp is persisted as its ISO-8601 string —
`isoformat`/`fromisoformat` are mutually inverse, so the string is modelled by
the `DateTime` value it encodes. -/
structure InterestEntryDoc where
  name : Option String
  status : Option String
  added_at : Option DateTime
  current : Option Bool
deriving DecidableEq, Repr

/-- The nested `patterns` object of the persisted document. -/
structure PatternsDoc where
  active_hours : Option (List Int)
  typical_topics : Option (List String)
deriving DecidableEq, Repr

/-- The nested `knowledge_graph` object of the persisted document. -/
structure KnowledgeGraphDoc where
  quick_facts : Option (List String)
  interests : Option (List (String × List InterestEntryDoc))
  personal : Option (List (String × String))
  social : Option (List (String × String))
  patterns : Option PatternsDoc
deriving DecidableEq, Repr

/-- The persisted Firebase document for a user knowledge graph. -/
structure GraphDoc where
  user_id : Option Int
  username : Option String
  knowledge_graph : Option KnowledgeGraphDoc
  created_at : Option DateTime
  updated_at : Option DateTime
deriving DecidableEq, Repr

/-- `InterestEntry.to_dict` from `models.py`. -/
def InterestEntry.to_dict (e : InterestEntry) : InterestEntryDoc :=
  { name := some e.name, status := some e.status.value,
    added_at := some e.added_at, current := some e.current }

/-- `UserKnowledgeGraph.to_dict` from `graph_memory.py` (lines 169-189). -/
def UserKnowledgeGraph.to_dict (g : UserKnowledgeGraph) : GraphDoc :=
  { user_id := some g.user_id,
    username := some g.username,
    knowledge_graph := some
      { quick_facts := some g.quick_facts,
        interests := some (g.interests.map (fun p => (p.1, p.2.map InterestEntry.to_dict))),
        personal := some g.personal,
        social := some g.social,
        patterns := some { active_hours := some g.active_hours,
                           typical_topics := some g.typical_topics } },
    created_at := some g.created_at,
    updated_at := some g.updated_at }

/-- One step of the entry loop in `from_dict`: `InterestStatus(...)` raises on
an unknown status string, modelled by `none`; `now` stands for the
`datetime.now()` default used when `added_at` is missing. -/
def parseEntry (now : DateTime) (d : InterestEntryDoc) : Option InterestEntry :=
  match InterestStatus.ofValue? (d.status.getD "likes") with
  | none => none
  | some st =>
    some { name := d.name.getD "", status := st,
           added_at := d.added_at.getD now, current := d.current.getD true }

/-- The inner `for entry_data in entries_list` loop of `from_dict`. -/
def parseEntries (now : DateTime) : List InterestEntryDoc → Option (List InterestEntry)
  | [] => some []
  | d :: rest =>
    match parseEntry now d, parseEntries now rest with
    | some e, some es => some (e :: es)
    | _, _ => none

/-- The outer `for category, entries_list in interests_data.items()` loop. -/
def parseInterests (now : DateTime) :
    List (String × List InterestEntryDoc) → Option (List (String × List InterestEntry))
  | [] => some []
  | (c, ds) :: rest =>
    match parseEntries now ds, parseInterests now rest with
    | some es, some r => some ((c, es) :: r)
    | _, _ => none

/-- `UserKnowledgeGraph.from_dict` from `graph_memory.py` (lines 191-232);
missing keys take the `.get` defaults, `created_at`/`updated_at` are
overwritten only when present (otherwise they keep the constructor's
`datetime.now()` default, namely `now`). -/
def UserKnowledgeGraph.from_dict (now : DateTime) (data : GraphDoc) :
    Option UserKnowledgeGraph :=
  let kg := data.knowledge_graph.getD
    { quick_facts := none, interests := none, personal := none, social := none,
      patterns := none }
  match parseInterests now (kg.interests.getD []) with
  | none => none
  | some ints =>
    let patterns := kg.patterns.getD { active_hours := none, typical_topics := none }
    some { user_id := data.user_id.getD 0,
           username := data.username.getD "Unknown",
           quick_facts := kg.quick_facts.getD [],
           interests := ints,
           personal := kg.personal.getD [],
           social := kg.social.getD [],
           active_hours := patterns.active_hours.getD [],
           typical_topics := patterns.typical_topics.getD [],
           created_at := data.created_at.getD now,
           updated_at := data.updated_at.getD now }

theorem statusValue_round (s : InterestStatus) :
    InterestStatus.ofValue? s.value = some s := by
  cases s <;> rfl

theorem parseEntry_to_dict (now : DateTime) (e : InterestEntry) :
    parseEntry now e.to_dict = some e := by
  simp [parseEntry, InterestEntry.to_dict, statusValue_round]

theorem parseEntries_to_dict (now : DateTime) (es : List InterestEntry) :
    parseEntries now (es.map InterestEntry.to_dict) = some es := by
  induction es with
  | nil => rfl
  | cons e rest ih =>
    rw [List.map_cons]
    unfold parseEntries
    rw [parseEntry_to_dict, ih]

theorem parseInterests_to_dict (now : DateTime)
    (ints : List (String × List InterestEntry)) :
    parseInterests now (ints.map (fun p => (p.1, p.2.map InterestEntry.to_dict)))
      = some ints := by
  induction ints with
  | nil => rfl
  | cons p rest ih =>
    rw [List.map_cons]
    unfold parseInterests
    rw [parseEntries_to_dict, ih]

/-- C3: reconstructing a `UserKnowledgeGraph` from its persisted document form
(`from_dict ∘ to_dict`) succeeds and yields the graph unchanged — same
quick_facts in order, same interest entries per category with identical names,
statuses, current flags and added_at timestamps (and same personal/social/
patterns data and metadata timestamps). -/
theorem C3_to_dict_from_dict_roundtrip (g : UserKnowledgeGraph) (now : DateTime) :
    UserKnowledgeGraph.from_dict now g.to_dict = some g := by
  have hints := parseInterests_to_dict now g.interests
  simp [UserKnowledgeGraph.from_dict, UserKnowledgeGraph.to_dict, hints]

/-- `ChatMessage` from `models.py`. -/
structure ChatMessage where
  user_id : Int
  username : String
  text : String
  message_id : Int
  timestamp : DateTime
deriving DecidableEq, Repr

/-- `Memory.clear_daily_log` (`memory.py` lines 402-415), with
`datetime.now()` passed as `now`: keep only the messages whose timestamp is
`>= today_midnight`, preserving order. -/
def clear_daily_log (daily_log : List ChatMessage) (now : DateTime) :
    List ChatMessage :=
  daily_log.filter (fun msg => DateTime.le now.midnight msg.timestamp)

/-- C8: pruning the daily log at any instant retains exactly the messages
whose timestamp is at or after local midnight of the call instant, in their
original order (the result is a sublist), and pruning again at any instant
with the same local midnight (in particular immediately afterwards) leaves the
log unchanged. -/
theorem C8_clear_daily_log (log : List ChatMessage) (now now2 : DateTime)
    (hsame : now2.midnight = now.midnight) :
    ((clear_daily_log log now).Sublist log)
    ∧ (∀ m : ChatMessage, m ∈ clear_daily_log log now
        ↔ m ∈ log ∧ DateTime.le now.midnight m.timestamp = true)
    ∧ clear_daily_log (clear_daily_log log now) now2 = clear_daily_log log now := by
  refine ⟨List.filter_sublist _, ?_, ?_⟩
  · intro m
    exact List.mem_filter
  · unfold clear_daily_log
    rw [hsame, List.filter_filter]
    simp

def msg8a : ChatMessage :=
  { user_id := 1, username := "a", text := "old", message_id := 1, timestamp := T0 }

def msg8b : ChatMessage :=
  { user_id := 2, username := "b", text := "new", message_id := 2,
    timestamp := ⟨2024, 1, 2, 12, 0, 0, 0⟩ }

def T1b : DateTime := ⟨2024, 1, 2, 13, 45, 0, 0⟩

theorem C8_clear_daily_log_witness :
    clear_daily_log (clear_daily_log [msg8a, msg8b] T1) T1b
      = clear_daily_log [msg8a, msg8b] T1 :=
  (C8_clear_daily_log [msg8a, msg8b] T1 T1b (by decide)).2.2

/-- `Memory.BOT_USER_ID`. -/
def BOT_USER_ID : Int := -1

/-- State of `Memory` (`memory.py`): the short-term ring (a deque with maxlen
`short_memory_limit`), the unbounded daily log, and the durable side of the
write path — the `messages` collection appends and the `users` upserts issued
so far — plus whether a storage backend is attached and the bot name. -/
structure MemoryState where
  short_limit : Nat
  bot_name : String
  storage_attached : Bool
  short_term : List ChatMessage
  daily_log : List ChatMessage
  stored_messages : List ChatMessage
  stored_users : List (Int × String × DateTime)
deriving DecidableEq, Repr

/-- `deque(maxlen=n).append`: append and drop from the front when over
capacity. -/
def dequePush (n : Nat) (l : List ChatMessage) (m : ChatMessage) :
    List ChatMessage :=
  (l ++ [m]).drop ((l ++ [m]).length - n)

/-- `Memory.add_message` (`memory.py` lines 230-287).  `tMsg` is the
`datetime.now()` that stamps the message; `tToday` the second `datetime.now()`
whose date is compared with the message's date for the daily-log append (and
which also stamps the upsert's `last_seen`). -/
def add_message (st : MemoryState) (user_id : Int) (username text : String)
    (message_id : Int) (save_to_firebase : Bool) (tMsg tToday : DateTime) :
    MemoryState × ChatMessage :=
  let message : ChatMessage :=
    { user_id := user_id, username := username, text := text,
      message_id := message_id, timestamp := tMsg }
  let st1 := { st with short_term := dequePush st.short_limit st.short_term message }
  let st2 := if message.timestamp.dateOf = tToday.dateOf
    then { st1 with daily_log := st1.daily_log ++ [message] }
    else st1
  let st3 := if save_to_firebase && st.storage_attached then
      { st2 with stored_messages := st2.stored_messages ++ [message],
                 stored_users := st2.stored_users ++ [(user_id, username, tToday)] }
    else st2
  (st3, message)

/-- `Memory.add_bot_response` (`memory.py` lines 289-307): `add_message` with
the sentinel user id, the bot's name, and `save_to_firebase=False`. -/
def add_bot_response (st : MemoryState) (text : String) (message_id : Int)
    (tMsg tToday : DateTime) : MemoryState × ChatMessage :=
  add_message st BOT_USER_ID st.bot_name text message_id false tMsg tToday

/-- `Memory.get_daily_log`. -/
def get_daily_log (st : MemoryState) : List ChatMessage :=
  st.daily_log

/-- C9: `add_bot_response` creates a message carrying the sentinel user id,
appends it to the short-term ring (it becomes the last ring element whenever
the capacity is positive) and — when the two clock reads fall on the same
calendar day, which is the normal case — to the daily log; it writes nothing
to durable storage and upserts no user, so a storage that contained no
sentinel messages still contains none, while the daily log that the nightly
pipeline's memory fallback consumes does contain the bot's own response. -/
theorem C9_add_bot_response (st : MemoryState) (text : String) (mid : Int)
    (t1 t2 : DateTime) :
    ((add_bot_response st text mid t1 t2).2.user_id = BOT_USER_ID)
    ∧ (0 < st.short_limit →
        (add_bot_response st text mid t1 t2).1.short_term.getLast?
          = some (add_bot_response st text mid t1 t2).2)
    ∧ (t1.dateOf = t2.dateOf →
        (add_bot_response st text mid t1 t2).1.daily_log
          = st.daily_log ++ [(add_bot_response st text mid t1 t2).2])
    ∧ (t1.dateOf = t2.dateOf →
        (add_bot_response st text mid t1 t2).2
          ∈ get_daily_log (add_bot_response st text mid t1 t2).1)
    ∧ ((add_bot_response st text mid t1 t2).1.stored_messages = st.stored_messages)
    ∧ ((add_bot_response st text mid t1 t2).1.stored_users = st.stored_users)
    ∧ ((∀ m ∈ st.stored_messages, m.user_id ≠ BOT_USER_ID) →
        ∀ m ∈ (add_bot_response st text mid t1 t2).1.stored_messages,
          m.user_id ≠ BOT_USER_ID) := by
  have hmsg : (add_bot_response st text mid t1 t2).2
      = { user_id := BOT_USER_ID, username := st.bot_name, text := text,
          message_id := mid, timestamp := t1 } := by
    by_cases hd : t1.dateOf = t2.dateOf
    · simp [add_bot_response, add_message, hd]
    · simp [add_bot_response, add_message, hd]
  refine ⟨by rw [hmsg], ?_, ?_, ?_, ?_, ?_, ?_⟩
  · intro hpos
    have hshort : (add_bot_response st text mid t1 t2).1.short_term
        = dequePush st.short_limit st.short_term (add_bot_response st text mid t1 t2).2 := by
      by_cases hd : t1.dateOf = t2.dateOf
      · simp [add_bot_response, add_message, hd]
      · simp [add_bot_response, add_message, hd]
    rw [hshort]
    unfold dequePush
    have hk : (st.short_term ++ [(add_bot_response st text mid t1 t2).2]).length
        - st.short_limit ≤ st.short_term.length := by
      rw [List.length_append]
      simp
      omega
    rw [List.drop_append_eq_append_drop]
    have hz : (st.short_term ++ [(add_bot_response st text mid t1 t2).2]).length
        - st.short_limit - st.short_term.length = 0 := by
      rw [List.length_append]
      simp
      omega
    rw [hz, List.drop_zero, List.getLast?_concat]
  · intro hd
    rw [hmsg]
    simp [add_bot_response, add_message, hd]
  · intro hd
    have : (add_bot_response st text mid t1 t2).1.daily_log
        = st.daily_log ++ [(add_bot_response st text mid t1 t2).2] := by
      rw [hmsg]
      simp [add_bot_response, add_message, hd]
    unfold get_daily_log
    rw [this]
    simp
  · by_cases hd : t1.dateOf = t2.dateOf
    · simp [add_bot_response, add_message, hd]
    · simp [add_bot_response, add_message, hd]
  · by_cases hd : t1.dateOf = t2.dateOf
    · simp [add_bot_response, add_message, hd]
    · simp [add_bot_response, add_message, hd]
  · intro hinv m hm
    have hst : (add_bot_response st text mid t1 t2).1.stored_messages
        = st.stored_messages := by
      by_cases hd : t1.dateOf = t2.dateOf
      · simp [add_bot_response, add_message, hd]
      · simp [add_bot_response, add_message, hd]
    rw [hst] at hm
    exact hinv m hm

def ST9 : MemoryState :=
  { short_limit := 30, bot_name := "Вася", storage_attached := true,
    short_term := [msg8b], daily_log := [msg8b],
    stored_messages := [msg8b], stored_users := [] }

theorem C9_add_bot_response_witness :
    (add_bot_response ST9 "здаров" 0 T1 T1b).1.daily_log
      = ST9.daily_log ++ [(add_bot_response ST9 "здаров" 0 T1 T1b).2] :=
  (C9_add_bot_response ST9 "здаров" 0 T1 T1b).2.2.1 (by decide)

/-- In-place list append at key `k` of the per-user dict. -/
def updateGroup (m : List (Int × List ChatMessage)) (k : Int)
    (f : List ChatMessage → List ChatMessage) : List (Int × List ChatMessage) :=
  m.map (fun p => if p.1 == k then (p.1, f p.2) else p)

/-- One step of the grouping loop in
`DailyMessageCollector.get_messages_for_day` (`deepseek_analyzer.py` lines
298-309): `messages_by_user[msg.user_id].append(msg)` with dict-key creation
on first sight. -/
def dictAppend (m : List (Int × List ChatMessage)) (k : Int) (v : ChatMessage) :
    List (Int × List ChatMessage) :=
  if m.any (fun p => p.1 == k) then updateGroup m k (fun l => l ++ [v])
  else m ++ [(k, [v])]

/-- The memory-fallback path of `get_messages_for_day`: group the daily log by
`msg.user_id` (bot messages, `user_id == -1`, get their own key). -/
def groupByUser (msgs : List ChatMessage) : List (Int × List ChatMessage) :=
  msgs.foldl (fun acc msg => dictAppend acc msg.user_id msg) []

/-- Dict lookup with empty default, for observation. -/
def lookupGroup (m : List (Int × List ChatMessage)) (k : Int) : List ChatMessage :=
  ((m.find? (fun p => p.1 == k)).map Prod.snd).getD []

theorem updateGroup_cons (a : Int × List ChatMessage)
    (t : List (Int × List ChatMessage)) (k : Int)
    (f : List ChatMessage → List ChatMessage) :
    updateGroup (a :: t) k f
      = (if a.1 == k then (a.1, f a.2) else a) :: updateGroup t k f := rfl

theorem lookupGroup_cons_pos (a : Int × List ChatMessage)
    (t : List (Int × List ChatMessage)) (k : Int) (h : (a.1 == k) = true) :
    lookupGroup (a :: t) k = a.2 := by
  simp [lookupGroup, List.find?_cons, h]

theorem lookupGroup_cons_neg (a : Int × List ChatMessage)
    (t : List (Int × List ChatMessage)) (k : Int) (h : (a.1 == k) = false) :
    lookupGroup (a :: t) k = lookupGroup t k := by
  simp [lookupGroup, List.find?_cons, h]

theorem lookupGroup_of_not_mem (m : List (Int × List ChatMessage)) (k : Int)
    (h : m.any (fun p => p.1 == k) = false) : lookupGroup m k = [] := by
  induction m with
  | nil => rfl
  | cons a t ih =>
    simp only [List.any_cons, Bool.or_eq_false_iff] at h
    rw [lookupGroup_cons_neg _ _ _ h.1]
    exact ih h.2

theorem lookupGroup_updateGroup_self (m : List (Int × List ChatMessage)) (k : Int)
    (f : List ChatMessage → List ChatMessage)
    (h : m.any (fun p => p.1 == k) = true) :
    lookupGroup (updateGroup m k f) k = f (lookupGroup m k) := by
  induction m with
  | nil => simp at h
  | cons a t ih =>
    rw [updateGroup_cons]
    cases hk : (a.1 == k) with
    | true =>
      rw [if_pos rfl, lookupGroup_cons_pos (a.1, f a.2) _ _ hk, lookupGroup_cons_pos _ _ _ hk]
    | false =>
      simp only [List.any_cons, hk, Bool.false_or] at h
      rw [if_neg (by simp), lookupGroup_cons_neg _ _ _ hk, lookupGroup_cons_neg _ _ _ hk]
      exact ih h

theorem lookupGroup_updateGroup_ne (m : List (Int × List ChatMessage)) (k kp : Int)
    (f : List ChatMessage → List ChatMessage) (h : kp ≠ k) :
    lookupGroup (updateGroup m k f) kp = lookupGroup m kp := by
  induction m with
  | nil => rfl
  | cons a t ih =>
    rw [updateGroup_cons]
    cases hk : (a.1 == k) with
    | true =>
      have hk2 : (a.1 == kp) = false := by
        rw [beq_eq_false_iff_ne]
        intro hc
        exact h (hc ▸ (beq_iff_eq.mp hk))
      rw [if_pos rfl, lookupGroup_cons_neg (a.1, f a.2) _ _ hk2, lookupGroup_cons_neg _ _ _ hk2]
      exact ih
    | false =>
      rw [if_neg (by simp)]
      cases hc : (a.1 == kp) with
      | true => rw [lookupGroup_cons_pos _ _ _ hc, lookupGroup_cons_pos _ _ _ hc]
      | false => rw [lookupGroup_cons_neg _ _ _ hc, lookupGroup_cons_neg _ _ _ hc]; exact ih

theorem lookupGroup_append_single (m : List (Int × List ChatMessage)) (k : Int)
    (v : List ChatMessage) (h : m.any (fun p => p.1 == k) = false) :
    lookupGroup (m ++ [(k, v)]) k = v := by
  induction m with
  | nil => exact lookupGroup_cons_pos _ _ _ (by simp)
  | cons a t ih =>
    simp only [List.any_cons, Bool.or_eq_false_iff] at h
    rw [List.cons_append, lookupGroup_cons_neg _ _ _ h.1]
    exact ih h.2

theorem lookupGroup_append_single_ne (m : List (Int × List ChatMessage)) (k kp : Int)
    (v : List ChatMessage) (h : kp ≠ k) :
    lookupGroup (m ++ [(k, v)]) kp = lookupGroup m kp := by
  induction m with
  | nil =>
    have hk : ((k, v).1 == kp) = false := by
      rw [beq_eq_false_iff_ne]; exact fun hc => h hc.symm
    rw [List.nil_append, lookupGroup_cons_neg _ _ _ hk]
  | cons a t ih =>
    rw [List.cons_append]
    cases hc : (a.1 == kp) with
    | true => rw [lookupGroup_cons_pos _ _ _ hc, lookupGroup_cons_pos _ _ _ hc]
    | false => rw [lookupGroup_cons_neg _ _ _ hc, lookupGroup_cons_neg _ _ _ hc]; exact ih

theorem lookupGroup_dictAppend_self (m : List (Int × List ChatMessage)) (k : Int)
    (v : ChatMessage) : lookupGroup (dictAppend m k v) k = lookupGroup m k ++ [v] := by
  unfold dictAppend
  by_cases hmem : (m.any (fun p => p.1 == k)) = true
  · rw [if_pos hmem]
    exact lookupGroup_updateGroup_self _ _ _ hmem
  · rw [Bool.not_eq_true] at hmem
    rw [if_neg (by simp [hmem]), lookupGroup_append_single _ _ _ hmem,
      lookupGroup_of_not_mem _ _ hmem, List.nil_append]

theorem lookupGroup_dictAppend_ne (m : List (Int × List ChatMessage)) (k kp : Int)
    (v : ChatMessage) (h : kp ≠ k) :
    lookupGroup (dictAppend m k v) kp = lookupGroup m kp := by
  unfold dictAppend
  by_cases hmem : (m.any (fun p => p.1 == k)) = true
  · rw [if_pos hmem]
    exact lookupGroup_updateGroup_ne _ _ _ _ h
  · rw [Bool.not_eq_true] at hmem
    rw [if_neg (by simp [hmem])]
    exact lookupGroup_append_single_ne _ _ _ _ h

theorem groupByUser_lookup (msgs : List ChatMessage) (u : Int) :
    lookupGroup (groupByUser msgs) u = msgs.filter (fun msg => msg.user_id == u) := by
  have haux : ∀ (ms : List ChatMessage) (acc : List (Int × List ChatMessage)),
      lookupGroup (ms.foldl (fun acc2 msg => dictAppend acc2 msg.user_id msg) acc) u
        = lookupGroup acc u ++ ms.filter (fun msg => msg.user_id == u) := by
    intro ms
    induction ms with
    | nil =>
      intro acc
      simp
    | cons m rest ih =>
      intro acc
      rw [List.foldl_cons, ih, List.filter_cons]
      cases hu : (m.user_id == u) with
      | true =>
        rw [if_pos rfl]
        have hu2 : m.user_id = u := beq_iff_eq.mp hu
        rw [← hu2, lookupGroup_dictAppend_self]
        simp
      | false =>
        rw [if_neg (by simp)]
        rw [lookupGroup_dictAppend_ne _ _ _ _ (fun hc => by simp [hc] at hu)]
  have := haux msgs []
  unfold groupByUser
  rw [this]
  rfl

/-- The analysis-set filter at the top of `analyze_user_messages`
(`deepseek_analyzer.py` line 93): drop sentinel messages, keep this user's. -/
def userMessages (user_id : Int) (messages : List ChatMessage) : List ChatMessage :=
  messages.filter (fun msg => msg.user_id != -1 && msg.user_id == user_id)

/-- What each user's enrichment call receives in the nightly pipeline:
`run_nightly_analysis` passes `messages_by_user[user_id]` — the grouped
messages for that user — and the prompt transcript is built from exactly that
list (lines 100-103). -/
def nightlyTranscriptFor (daily_log : List ChatMessage) (u : Int) :
    List ChatMessage :=
  lookupGroup (groupByUser daily_log) u

def msg4u : ChatMessage :=
  { user_id := 1, username := "alice", text := "привет", message_id := 10,
    timestamp := T1 }

def msg4b : ChatMessage :=
  { user_id := -1, username := "Вася", text := "здаров", message_id := 0,
    timestamp := T1b }

/-- C4 at the failing input (a daily log holding one user message and one
sentinel bot response): the sentinel message is indeed excluded from the
analysis set for user 1, but — because the collector groups by user id before
any analyzer call — it is also absent from the transcript the enrichment call
for user 1 receives, which contains only user 1's own messages. -/
theorem C4_sentinel_absent_from_transcript :
    userMessages 1 (nightlyTranscriptFor [msg4u, msg4b] 1) = [msg4u]
    ∧ nightlyTranscriptFor [msg4u, msg4b] 1 = [msg4u]
    ∧ msg4b ∉ nightlyTranscriptFor [msg4u, msg4b] 1 := by
  refine ⟨by decide, by decide, by decide⟩

/-- A timezone-localized clock reading as `TaskScheduler` consumes it: an
abstract calendar-day ordinal (`now.date()`, totally ordered) plus the time of
day (`now.time()` — the firing guard only reads hour and minute). -/
structure SchedTime where
  day : Nat
  hour : Nat
  minute : Nat
deriving DecidableEq, Repr

/-- `hour * 60 + minute`, as computed for both target and current time in
`_run_scheduler`. -/
def SchedTime.totalMinutes (t : SchedTime) : Nat :=
  t.hour * 60 + t.minute

/-- Chronological order on clock readings. -/
def SchedTime.leB (a b : SchedTime) : Bool :=
  decide (a.day < b.day)
    || (decide (a.day = b.day) && decide (a.totalMinutes ≤ b.totalMinutes))

/-- `last_run is None or last_run.date() < now.date()` from `_run_scheduler`
(line 99). -/
def lastGuardB : Option SchedTime → SchedTime → Bool
  | none, _ => true
  | some u, now => decide (u.day < now.day)

/-- The firing condition of `_run_scheduler` (lines 91-99): within one minute
of the target wall-clock time, and not already run today. -/
def shouldFireB (target : Nat × Nat) (last : Option SchedTime) (now : SchedTime) :
    Bool :=
  decide (Int.natAbs ((target.1 * 60 + target.2 : Int) - (now.totalMinutes : Int)) ≤ 1)
    && lastGuardB last now

/-- A task execution event: a polling-loop firing or a `run_task_now` call. -/
inductive SchedEvent where
  | scheduled (t : SchedTime)
  | manual (t : SchedTime)
deriving DecidableEq, Repr

def SchedEvent.time : SchedEvent → SchedTime
  | .scheduled t => t
  | .manual t => t

/-- Whether an event may execute in state `last_run`: a loop firing obeys
`shouldFireB`; `run_task_now` never consults `last_run`.  Both set `last_run`
to their own time on success (`_run_scheduler` line 103; `run_task_now`
line 146). -/
def enabled (target : Nat × Nat) (last : Option SchedTime) : SchedEvent → Bool
  | .scheduled t => shouldFireB target last t
  | .manual _ => true

/-- A valid execution trace from a `last_run` state: each event is enabled
when it runs, and updates `last_run` to its own time. -/
def validRun (target : Nat × Nat) : Option SchedTime → List SchedEvent → Bool
  | _, [] => true
  | last, e :: rest => enabled target last e && validRun target (some e.time) rest

/-- The events occur in chronological order, never before the lower bound. -/
def chronoFrom : Option SchedTime → List SchedEvent → Bool
  | _, [] => true
  | none, e :: rest => chronoFrom (some e.time) rest
  | some t, e :: rest => SchedTime.leB t e.time && chronoFrom (some e.time) rest

/-- Calendar days of the scheduled (polling-loop) firings of a trace. -/
def schedDays : List SchedEvent → List Nat
  | [] => []
  | .scheduled t :: rest => t.day :: schedDays rest
  | .manual _ :: rest => schedDays rest

theorem sched_days_after (target : Nat × Nat) :
    ∀ (trace : List SchedEvent) (u : SchedTime),
      validRun target (some u) trace = true →
      chronoFrom (some u) trace = true →
      ∀ d ∈ schedDays trace, u.day < d := by
  intro trace
  induction trace with
  | nil =>
    intro u _ _ d hd
    simp [schedDays] at hd
  | cons e rest ih =>
    intro u hv hc d hd
    simp only [validRun, SchedEvent.time, Bool.and_eq_true] at hv
    simp only [chronoFrom, SchedEvent.time, Bool.and_eq_true] at hc
    cases e with
    | scheduled t =>
      have hguard : u.day < t.day := by
        have h1 := hv.1
        simp only [enabled, shouldFireB, lastGuardB, Bool.and_eq_true,
          decide_eq_true_eq] at h1
        exact h1.2
      simp only [schedDays, List.mem_cons] at hd
      rcases hd with rfl | hd2
      · exact hguard
      · exact lt_trans hguard (ih t hv.2 hc.2 d hd2)
    | manual t =>
      have hle : u.day ≤ t.day := by
        have h1 := hc.1
        simp only [SchedTime.leB, Bool.or_eq_true, Bool.and_eq_true,
          decide_eq_true_eq] at h1
        omega
      simp only [schedDays] at hd
      exact lt_of_le_of_lt hle (ih t hv.2 hc.2 d hd)

theorem sched_days_pairwise (target : Nat × Nat) :
    ∀ (trace : List SchedEvent) (last : Option SchedTime),
      validRun target last trace = true →
      chronoFrom last trace = true →
      (schedDays trace).Pairwise (· < ·) := by
  intro trace
  induction trace with
  | nil =>
    intro last _ _
    exact List.Pairwise.nil
  | cons e rest ih =>
    intro last hv hc
    simp only [validRun, Bool.and_eq_true] at hv
    have hcrest : chronoFrom (some e.time) rest = true := by
      cases last with
      | none => exact hc
      | some t =>
        simp only [chronoFrom, Bool.and_eq_true] at hc
        exact hc.2
    cases e with
    | scheduled t =>
      simp only [schedDays]
      exact List.Pairwise.cons (sched_days_after target rest t hv.2 hcrest)
        (ih (some (SchedEvent.scheduled t).time) hv.2 hcrest)
    | manual t =>
      simp only [schedDays]
      exact ih (some (SchedEvent.manual t).time) hv.2 hcrest

/-- C10 (amended): a successful manual run stamps `last_run` with its own
time, and the polling loop's guard refuses to fire the scheduled run on any
day not strictly later than `last_run`'s — so after a manual run the scheduled
run cannot fire again the same calendar day, and in every valid chronological
execution trace the scheduled firings fall on strictly increasing (hence
pairwise distinct) calendar days.  Manual runs themselves are not limited. -/
theorem C10_manual_suppresses_scheduled (target : Nat × Nat) (u t : SchedTime)
    (trace : List SchedEvent) (last : Option SchedTime)
    (hday : t.day ≤ u.day)
    (hv : validRun target last trace = true)
    (hc : chronoFrom last trace = true) :
    enabled target (some u) (SchedEvent.scheduled t) = false
    ∧ (schedDays trace).Pairwise (· < ·) := by
  constructor
  · simp only [enabled, shouldFireB, lastGuardB]
    have hg : decide (u.day < t.day) = false := decide_eq_false (by omega)
    rw [hg, Bool.and_false]
  · exact sched_days_pairwise target trace last hv hc

def SE1 : SchedEvent := SchedEvent.manual ⟨5, 10, 0⟩

def SE2 : SchedEvent := SchedEvent.manual ⟨5, 11, 0⟩

/-- C10 as stated fails: `run_task_now` never consults `last_run`, so two
manual runs within the same calendar day are both valid executions — the task
runs twice on one day. -/
theorem C10_counterexample :
    (validRun (3, 0) none [SE1, SE2] = true)
    ∧ (chronoFrom none [SE1, SE2] = true)
    ∧ SE1.time.day = SE2.time.day := by
  refine ⟨by decide, by decide, by decide⟩

theorem C10_manual_suppresses_scheduled_witness :
    enabled (3, 0) (some ⟨5, 12, 0⟩) (SchedEvent.scheduled ⟨5, 3, 1⟩) = false
    ∧ (schedDays [SE1, SchedEvent.scheduled ⟨6, 3, 0⟩]).Pairwise (· < ·) :=
  C10_manual_suppresses_scheduled (3, 0) ⟨5, 12, 0⟩ ⟨5, 3, 1⟩
    [SE1, SchedEvent.scheduled ⟨6, 3, 0⟩] none (by decide) (by decide) (by decide)

end DeepSeekBot
